import Mathlib

/-!
Verification development for the Callora backend gateway.

The definitions below are a shallow embedding of the request-proxying
pipeline (`src/routes/proxyRoutes.ts`) and of the revenue-settlement batch
(`src/services/revenueSettlementService.ts`, `src/services/settlementStore.ts`).
JavaScript numbers carrying money amounts are modelled as rationals,
HTTP header objects as association lists with object-update semantics,
and the injected collaborator interfaces (registry, key store, rate limiter,
billing ledger, upstream fetch, settlement network client) as explicit
function parameters, matching the dependency-injection style of the source.
-/

namespace Callora

/-- Record of a registered API key, from `types/gateway.ts` (`ApiKey`). -/
structure ApiKeyRec where
  key : String
  developerId : String
  apiId : String
deriving DecidableEq, Repr

/-- A registered API entry, from `types/gateway.ts` (`ApiRegistryEntry`). -/
structure ApiRegistryEntry where
  id : String
  slug : String
  base_url : String
  developerId : String
deriving DecidableEq, Repr

/-- A recorded usage event exactly as the proxy route constructs it in
`proxyRoutes.ts` step 8 and as declared in `types/gateway.ts` (`UsageEvent`):
the fields are `id`, `apiKey`, `apiId`, `statusCode`, `timestamp` and nothing
else — in particular the record carries no charged-amount field. -/
structure UsageEvent where
  id : String
  apiKey : String
  apiId : String
  statusCode : Nat
  timestamp : String
deriving DecidableEq, Repr

/-- Result of a billing deduction attempt, from `types/gateway.ts`
(`BillingResult`). -/
structure BillingResult where
  success : Bool
  balance : Option ℚ
deriving DecidableEq, Repr

/-- Result of a rate-limit check, from `types/gateway.ts` (`RateLimitResult`). -/
structure RateLimitResult where
  allowed : Bool
  retryAfterMs : Option Nat
deriving DecidableEq, Repr

/-- A value stored under one name in a Node.js `req.headers` object: either a
single string or an array of strings (Node delivers repeated headers such as
`set-cookie` as arrays). -/
inductive HeaderValue where
  | str : String → HeaderValue
  | strs : List String → HeaderValue
deriving DecidableEq, Repr

/-- Inbound request header object: association list of name/value bindings
(a JavaScript object, so names are unique in a well-formed request). -/
abbrev Headers := List (String × HeaderValue)

/-- The fixed strip-list `DEFAULT_STRIP_HEADERS` of `proxyRoutes.ts`. -/
def DEFAULT_STRIP_HEADERS : List String :=
  [ "host"
  , "x-api-key"
  , "connection"
  , "keep-alive"
  , "transfer-encoding"
  , "te"
  , "trailer"
  , "upgrade"
  , "proxy-authorization"
  , "proxy-connection" ]

/-- The constant `CREDIT_COST_PER_CALL = 1` of `proxyRoutes.ts`. -/
def CREDIT_COST_PER_CALL : ℚ := 1

/-- Object-style update on a string/string association list: replaces the
binding if the exact key is present, appends it otherwise (JavaScript
`obj[k] = v`). -/
def objSet : List (String × String) → String → String → List (String × String)
  | [], k, v => [(k, v)]
  | (k', v') :: rest, k, v =>
      if k' = k then (k, v) :: rest else (k', v') :: objSet rest k v

/-- Case-insensitive header update, modelling Express `res.set(k, v)` which
overwrites an existing response header regardless of name case. -/
def respSet : List (String × String) → String → String → List (String × String)
  | [], k, v => [(k, v)]
  | (k', v') :: rest, k, v =>
      if k'.toLower = k.toLower then (k, v) :: rest else (k', v') :: respSet rest k v

/-- Case-insensitive response-header lookup. -/
def respGet : List (String × String) → String → Option String
  | [], _ => none
  | p :: rest, k => if p.1.toLower = k.toLower then some p.2 else respGet rest k

/-- Exact-key lookup in an inbound header object (`req.headers[k]`; Node has
already lower-cased the names). -/
def getHeader : Headers → String → Option HeaderValue
  | [], _ => none
  | p :: rest, k => if p.1 = k then some p.2 else getHeader rest k

/-- Extraction of the `x-api-key` credential: `req.headers['x-api-key']` read
as a string (`undefined` when absent; array values cannot occur for this
header because Node joins repeats of it into one string). -/
def getApiKeyHeader (hs : Headers) : Option String :=
  match getHeader hs "x-api-key" with
  | some (.str s) => some s
  | _ => none

/-- One iteration of the header-copy loop of `proxyRoutes.ts` step 6: skip a
binding whose lower-cased name is on the strip-list or whose value is not a
single string, otherwise copy it into the outbound object. -/
def forwardCopyStep (strip : List String) (acc : List (String × String))
    (p : String × HeaderValue) : List (String × String) :=
  if strip.any (fun s => s.toLower == p.1.toLower) then acc
  else match p.2 with
    | .str v => objSet acc p.1 v
    | .strs _ => acc

/-- The header-forwarding loop of `proxyRoutes.ts` step 6: copy each inbound
binding whose lower-cased name is not on the strip-list and whose value is a
single string, then set `x-request-id` to the fresh correlation id. -/
def buildForwardHeaders (strip : List String) (hs : Headers)
    (requestId : String) : List (String × String) :=
  objSet (hs.foldl (forwardCopyStep strip) []) "x-request-id" requestId

/-- Outcome of the `fetch` to the upstream, as discriminated by the catch
block of `proxyRoutes.ts`: a response with a status and headers, a
`TimeoutError` `DOMException` (the configured `AbortSignal` timeout fired), a
`TypeError` carrying code `UND_ERR_CONNECT_TIMEOUT` (undici's own connect
timeout), or any other thrown transport error. -/
inductive UpstreamOutcome where
  | ok : Nat → List (String × String) → UpstreamOutcome
  | timeout : UpstreamOutcome
  | connectTimeout : UpstreamOutcome
  | transportError : UpstreamOutcome
deriving DecidableEq, Repr

/-- Structured JSON bodies produced by the proxy route: the plain
`error`/`requestId` errors, the 402 body that adds `balance`, the 429 body
that adds `retryAfterMs`, and the streamed upstream body. -/
inductive ResponseBody where
  | errJson : String → String → ResponseBody
  | errJsonBalance : String → Option ℚ → String → ResponseBody
  | errJsonRetry : String → Option Nat → String → ResponseBody
  | stream : ResponseBody
deriving DecidableEq, Repr

/-- The response the proxy sends to the caller. -/
structure ProxyResponse where
  status : Nat
  headers : List (String × String)
  body : ResponseBody
deriving DecidableEq, Repr

/-- One observable side effect performed by the pipeline, in order. -/
inductive ProxyEffect where
  | rateCheckE : String → ProxyEffect
  | deductE : String → ℚ → ProxyEffect
  | forwardE : List (String × String) → ProxyEffect
  | recordE : UsageEvent → ProxyEffect
deriving DecidableEq, Repr

/-- Injected collaborators of `createProxyRouter` (`ProxyDeps`), with the
stateful billing ledger represented by its balance table. -/
structure ProxyDeps where
  registry : String → Option ApiRegistryEntry
  apiKeys : String → Option ApiKeyRec
  rateCheck : String → RateLimitResult
  balances : String → ℚ
  stripHeaders : List String

/-- An inbound request as the route handler sees it. -/
structure ProxyRequest where
  apiSlugOrId : String
  headers : Headers
  method : String

/-- Result of one pipeline execution: the response, the usage events recorded
during the request, the billing balances afterwards, and the ordered effect
trace. -/
structure ProxyResult where
  response : ProxyResponse
  recorded : List UsageEvent
  balances : String → ℚ
  effects : List ProxyEffect

/-- Modelled from the spec: the Billing Ledger's atomic `deductCredit`
(§4.3) — the `billingService.ts` implementation is absent from the snapshot,
only its `BillingService` interface is declared in `types/gateway.ts`. If the
balance covers the amount it is decreased and success is returned with the
new balance; otherwise the balance is untouched and failure is returned with
the current balance. -/
def deductCredit (balances : String → ℚ) (developerId : String) (amount : ℚ) :
    BillingResult × (String → ℚ) :=
  let bal := balances developerId
  if amount ≤ bal then
    (⟨true, some (bal - amount)⟩,
     fun d => if d = developerId then bal - amount else balances d)
  else
    (⟨false, some bal⟩, balances)

/-- Final status code of a forwarded request, as computed by the try/catch of
`proxyRoutes.ts` step 7: the upstream's own status on a response, 504 for the
configured-timeout `TimeoutError`, 504 for `UND_ERR_CONNECT_TIMEOUT`, and 502
for any other transport failure. -/
def upstreamStatusOf : UpstreamOutcome → Nat
  | .ok s _ => s
  | .timeout => 504
  | .connectTimeout => 504
  | .transportError => 502

/-- The hop-by-hop response-header set skipped when copying upstream response
headers back to the caller. -/
def hopByHop : List String :=
  ["connection", "keep-alive", "transfer-encoding", "te", "trailer", "upgrade"]

/-- Response headers sent to the caller for a forwarded request: on an
upstream response, every upstream header outside the hop-by-hop set is copied
and then `x-request-id` is set; on an error, only `x-request-id` is set. -/
def forwardResponseHeaders (requestId : String) : UpstreamOutcome → List (String × String)
  | .ok _ hs =>
      respSet
        (hs.foldl
          (fun acc p =>
            if hopByHop.contains p.1.toLower then acc else respSet acc p.1 p.2)
          [])
        "x-request-id" requestId
  | _ => [("x-request-id", requestId)]

/-- Body sent to the caller for a forwarded request. -/
def forwardResponseBody (requestId : String) : UpstreamOutcome → ResponseBody
  | .ok _ _ => .stream
  | .timeout => .errJson "Gateway Timeout" requestId
  | .connectTimeout => .errJson "Gateway Timeout" requestId
  | .transportError => .errJson "Bad Gateway: upstream unreachable" requestId

/-- The `handleProxy` request pipeline of `proxyRoutes.ts`, step by step:
resolve the API (404), require and validate the `x-api-key` credential (401),
rate-limit (429 with a whole-second `Retry-After`), deduct one credit (402
with the current balance), forward with filtered headers and a fresh
`x-request-id`, map the upstream outcome to the final status, and record
exactly one usage event for every request that reached forwarding. The fresh
`randomUUID()` and `new Date().toISOString()` are passed in as `requestId`
and `now`; the upstream outcome is the `upstream` oracle. -/
def handleProxy (deps : ProxyDeps) (req : ProxyRequest) (requestId : String)
    (now : String) (upstream : UpstreamOutcome) : ProxyResult :=
  match deps.registry req.apiSlugOrId with
  | none =>
      { response := { status := 404, headers := []
                    , body := .errJson "Not Found: unknown API" requestId }
        recorded := [], balances := deps.balances, effects := [] }
  | some apiEntry =>
    match getApiKeyHeader req.headers with
    | none =>
        { response := { status := 401, headers := []
                      , body := .errJson "Unauthorized: missing x-api-key header" requestId }
          recorded := [], balances := deps.balances, effects := [] }
    | some apiKeyHeader =>
      match deps.apiKeys apiKeyHeader with
      | none =>
          { response := { status := 401, headers := []
                        , body := .errJson "Unauthorized: invalid API key" requestId }
            recorded := [], balances := deps.balances, effects := [] }
      | some keyRecord =>
        if keyRecord.apiId ≠ apiEntry.id then
          { response := { status := 401, headers := []
                        , body := .errJson "Unauthorized: invalid API key" requestId }
            recorded := [], balances := deps.balances, effects := [] }
        else
          let rateResult := deps.rateCheck apiKeyHeader
          if rateResult.allowed = false then
            let retryAfterSec := (rateResult.retryAfterMs.getD 1000 + 999) / 1000
            { response := { status := 429
                          , headers := [("Retry-After", toString retryAfterSec)]
                          , body := .errJsonRetry "Too Many Requests"
                              rateResult.retryAfterMs requestId }
              recorded := [], balances := deps.balances
              effects := [.rateCheckE apiKeyHeader] }
          else
            let deducted := deductCredit deps.balances keyRecord.developerId
              CREDIT_COST_PER_CALL
            if deducted.1.success = false then
              { response := { status := 402, headers := []
                            , body := .errJsonBalance
                                "Payment Required: insufficient balance"
                                deducted.1.balance requestId }
                recorded := [], balances := deducted.2
                effects := [.rateCheckE apiKeyHeader
                           , .deductE keyRecord.developerId CREDIT_COST_PER_CALL] }
            else
              let fwdHeaders := buildForwardHeaders deps.stripHeaders req.headers requestId
              let finalStatus := upstreamStatusOf upstream
              let ev : UsageEvent :=
                { id := requestId, apiKey := apiKeyHeader, apiId := apiEntry.id
                , statusCode := finalStatus, timestamp := now }
              { response := { status := finalStatus
                            , headers := forwardResponseHeaders requestId upstream
                            , body := forwardResponseBody requestId upstream }
                recorded := [ev]
                balances := deducted.2
                effects := [.rateCheckE apiKeyHeader
                           , .deductE keyRecord.developerId CREDIT_COST_PER_CALL
                           , .forwardE fwdHeaders
                           , .recordE ev] }

/-! Settlement side: `revenueSettlementService.ts` and `settlementStore.ts`. -/

/-- Status of a settlement record, from `types/developer.ts` (`Settlement`). -/
inductive SettlementStatus where
  | pending
  | completed
  | failed
deriving DecidableEq, Repr

/-- A settlement record, from `types/developer.ts` (`Settlement`). -/
structure Settlement where
  id : String
  developerId : String
  amount : ℚ
  status : SettlementStatus
  tx_hash : Option String
  created_at : String
deriving DecidableEq, Repr

/-- Modelled from the spec: the Usage Store's event record as the settlement
batch consumes it (§3 `UsageEvent`, §4.4) — `usageStore.ts` is absent from the
snapshot, and the `UsageEvent` declared in `types/gateway.ts` lacks the amount
and settlement fields that `revenueSettlementService.ts` and its tests read.
Only the fields the batch touches are modelled: `id`, `apiId`, the positive
charge `amountUsdc`, and `settlementId`, unset until the event is settled. -/
structure SUsageEvent where
  id : String
  apiId : String
  amountUsdc : ℚ
  settlementId : Option String
deriving DecidableEq, Repr

/-- Modelled from the spec: `UsageStore.getUnsettledEvents` (§4.4
`getUnsettled`) — every stored event whose `settlementId` is unset. -/
def getUnsettledEvents (usage : List SUsageEvent) : List SUsageEvent :=
  usage.filter (fun e => e.settlementId = none)

/-- Modelled from the spec: `UsageStore.markAsSettled` (§4.4 `markSettled`) —
sets `settlementId` on exactly the events whose id is in the given list. -/
def markAsSettled (usage : List SUsageEvent) (eventIds : List String)
    (settlementId : String) : List SUsageEvent :=
  usage.map (fun e =>
    if e.id ∈ eventIds then { e with settlementId := some settlementId } else e)

/-- The `create` operation of `InMemorySettlementStore`: push onto the list. -/
def storeCreate (store : List Settlement) (s : Settlement) : List Settlement :=
  store ++ [s]

/-- The `updateStatus` operation of `InMemorySettlementStore`: find the first
settlement with the given id, set its status, and set `tx_hash` only when a
hash is supplied. -/
def updateStatus : List Settlement → String → SettlementStatus → Option String →
    List Settlement
  | [], _, _, _ => []
  | s :: rest, id, status, txHash =>
      if s.id = id then
        { s with status := status
               , tx_hash := match txHash with | some h => some h | none => s.tx_hash }
          :: rest
      else
        s :: updateStatus rest id status txHash

/-- Result of `SorobanSettlementClient.distribute`, as the batch reads it:
a success flag, an optional transaction hash, and an optional error. -/
structure DistributeResult where
  success : Bool
  txHash : Option String
deriving DecidableEq, Repr

/-- JavaScript truthiness of `result.txHash`: present and non-empty. -/
def txTruthy : Option String → Bool
  | none => false
  | some h => h ≠ ""

/-- Options of `RevenueSettlementService` (`RevenueSettlementOptions`). -/
structure RevenueSettlementOptions where
  minPayoutUsdc : Option ℚ
  maxEventsPerBatch : Option Nat
deriving DecidableEq, Repr

/-- One observable step of a batch run, in order. -/
inductive BatchOp where
  | createE : Settlement → BatchOp
  | distributeE : String → ℚ → BatchOp
  | updateStatusE : String → SettlementStatus → Option String → BatchOp
  | markSettledE : List String → String → BatchOp
deriving DecidableEq, Repr

/-- State threaded through a batch run: the settlement store, the usage
store, the returned counters, and the ordered operation trace. -/
structure BatchState where
  settlements : List Settlement
  usage : List SUsageEvent
  processed : Nat
  settledAmount : ℚ
  errors : Nat
  trace : List BatchOp
deriving Repr

/-- JavaScript `Map` lookup over the `devEvents` association list. -/
def mapLookup : List (String × List SUsageEvent) → String → Option (List SUsageEvent)
  | [], _ => none
  | p :: rest, k => if p.1 = k then some p.2 else mapLookup rest k

/-- JavaScript `Map.set`: replaces the value in place when the key exists,
appends the binding otherwise. -/
def mapSet : List (String × List SUsageEvent) → String → List SUsageEvent →
    List (String × List SUsageEvent)
  | [], k, v => [(k, v)]
  | (k', v') :: rest, k, v =>
      if k' = k then (k, v) :: rest else (k', v') :: mapSet rest k v

/-- One iteration of the grouping loop of `runBatch`: skip events with a
non-positive charge, skip events whose API no longer resolves, and otherwise
push the event onto its developer's group unless that group already holds
`maxEvents` events. -/
def groupStep (maxEvents : Nat) (registry : String → Option ApiRegistryEntry)
    (acc : List (String × List SUsageEvent)) (event : SUsageEvent) :
    List (String × List SUsageEvent) :=
  if event.amountUsdc ≤ 0 then acc
  else
    match registry event.apiId with
    | none => acc
    | some apiEntry =>
        let devId := apiEntry.developerId
        let group := (mapLookup acc devId).getD []
        if group.length < maxEvents then mapSet acc devId (group ++ [event])
        else acc

/-- The `totalAmount` reduction of `runBatch`: sum of the group's charges. -/
def sumAmount (events : List SUsageEvent) : ℚ :=
  events.foldl (fun s e => s + e.amountUsdc) 0

/-- The per-owner half of `runBatch`: sum the group's charges, skip the owner
when the sum is below the minimum payout, otherwise create a pending
settlement, call `distribute`, and either complete the settlement and mark
the events settled or mark the settlement failed and leave the events
untouched. The fresh `stl_` id for a group is `newId developerId` and
`new Date().toISOString()` is `now`. -/
def processGroup (minPayout : ℚ) (distribute : String → ℚ → DistributeResult)
    (newId : String → String) (now : String) (st : BatchState)
    (entry : String × List SUsageEvent) : BatchState :=
  let developerId := entry.1
  let events := entry.2
  let totalAmount := sumAmount events
  if totalAmount < minPayout then st
  else
    let settlementId := newId developerId
    let eventIds := events.map (·.id)
    let s : Settlement :=
      { id := settlementId, developerId := developerId, amount := totalAmount
      , status := .pending, tx_hash := none, created_at := now }
    let st1 : BatchState :=
      { st with settlements := storeCreate st.settlements s
              , trace := st.trace ++ [.createE s, .distributeE developerId totalAmount] }
    let result := distribute developerId totalAmount
    if result.success && txTruthy result.txHash then
      { st1 with
          settlements := updateStatus st1.settlements settlementId .completed result.txHash
        , usage := markAsSettled st1.usage eventIds settlementId
        , processed := st1.processed + events.length
        , settledAmount := st1.settledAmount + totalAmount
        , trace := st1.trace ++ [.updateStatusE settlementId .completed result.txHash
                                , .markSettledE eventIds settlementId] }
    else
      { st1 with
          settlements := updateStatus st1.settlements settlementId .failed none
        , errors := st1.errors + 1
        , trace := st1.trace ++ [.updateStatusE settlementId .failed none] }

/-- Spec-level view of the grouping condition: an unsettled event contributes
to developer `d`'s group when its charge is positive and its API resolves to
an entry owned by `d`. -/
def belongsTo (registry : String → Option ApiRegistryEntry) (d : String)
    (e : SUsageEvent) : Bool :=
  if e.amountUsdc ≤ 0 then false
  else
    match registry e.apiId with
    | none => false
    | some a => a.developerId = d

/-- The grouping pass of `runBatch` over the unsettled events. -/
def groupByDeveloper (maxEvents : Nat) (registry : String → Option ApiRegistryEntry)
    (unsettled : List SUsageEvent) : List (String × List SUsageEvent) :=
  unsettled.foldl (groupStep maxEvents registry) []

/-- `RevenueSettlementService.runBatch`: fetch the unsettled events (early
return when there are none), group them by developer with the per-batch cap,
then settle each group that meets the minimum payout. Defaults: minimum
payout 5.0, cap 1000. -/
def runBatch (options : RevenueSettlementOptions)
    (registry : String → Option ApiRegistryEntry)
    (distribute : String → ℚ → DistributeResult)
    (newId : String → String) (now : String)
    (usage : List SUsageEvent) (settlements : List Settlement) : BatchState :=
  let init : BatchState :=
    { settlements := settlements, usage := usage
    , processed := 0, settledAmount := 0, errors := 0, trace := [] }
  let unsettled := getUnsettledEvents usage
  if unsettled.length = 0 then init
  else
    let minPayout := options.minPayoutUsdc.getD 5
    let maxEvents := options.maxEventsPerBatch.getD 1000
    let devEvents := groupByDeveloper maxEvents registry unsettled
    devEvents.foldl (processGroup minPayout distribute newId now) init

/-! Helper lemmas about the header-object operations. -/

/-- Exact-key lookup in a forwarded-header object. -/
def objGet : List (String × String) → String → Option String
  | [], _ => none
  | p :: rest, k => if p.1 = k then some p.2 else objGet rest k

theorem objGet_objSet_self (m : List (String × String)) (k v : String) :
    objGet (objSet m k v) k = some v := by
  induction m with
  | nil => simp [objSet, objGet]
  | cons p rest ih =>
      by_cases h : p.1 = k
      · simp [objSet, h, objGet]
      · rw [objSet, if_neg h, objGet, if_neg h]
        exact ih

theorem objGet_objSet_other (m : List (String × String)) (k k' v : String)
    (h : k' ≠ k) : objGet (objSet m k v) k' = objGet m k' := by
  induction m with
  | nil =>
      have h1 : ¬ (((k, v) : String × String).1 = k') := fun hh => h hh.symm
      rw [objSet]
      simp only [objGet]
      rw [if_neg h1]
  | cons p rest ih =>
      by_cases hp : p.1 = k
      · have h1 : ¬ (((k, v) : String × String).1 = k') := fun hh => h hh.symm
        have h2 : ¬ (p.1 = k') := fun hh => h (hh.symm.trans hp)
        rw [objSet, if_pos hp]
        simp only [objGet]
        rw [if_neg h1, if_neg h2]
      · rw [objSet, if_neg hp, objGet, objGet]
        by_cases hk' : p.1 = k'
        · rw [if_pos hk', if_pos hk']
        · rw [if_neg hk', if_neg hk']
          exact ih

theorem objSet_of_not_mem (m : List (String × String)) (k v : String)
    (h : k ∉ m.map Prod.fst) : objSet m k v = m ++ [(k, v)] := by
  induction m with
  | nil => simp [objSet]
  | cons p rest ih =>
      simp only [List.map_cons, List.mem_cons] at h
      push_neg at h
      rw [objSet, if_neg (fun hh => h.1 hh.symm), List.cons_append]
      exact congrArg (p :: ·) (ih h.2)

theorem respGet_respSet_self (m : List (String × String)) (k v : String) :
    respGet (respSet m k v) k = some v := by
  induction m with
  | nil => simp [respSet, respGet]
  | cons p rest ih =>
      by_cases h : p.1.toLower = k.toLower
      · simp [respSet, h, respGet]
      · rw [respSet, if_neg h, respGet, if_neg h]
        exact ih

/-! Concrete fixtures shared by witnesses and counterexamples. -/

/-- A registered API used in concrete runs. -/
def cEntry : ApiRegistryEntry :=
  { id := "api_1", slug := "api-1", base_url := "http://upstream.test"
  , developerId := "dev_1" }

/-- A key record bound to `cEntry`. -/
def cKeyRec : ApiKeyRec := { key := "k1", developerId := "dev_1", apiId := "api_1" }

/-- Concrete proxy dependencies: registry resolving `cEntry` by id or slug,
key store holding `cKeyRec`, a permissive rate limiter, and balance 10. -/
def cDeps : ProxyDeps :=
  { registry := fun s => if s = "api_1" ∨ s = "api-1" then some cEntry else none
  , apiKeys := fun k => if k = "k1" then some cKeyRec else none
  , rateCheck := fun _ => { allowed := true, retryAfterMs := none }
  , balances := fun _ => 10
  , stripHeaders := DEFAULT_STRIP_HEADERS }

/-- A concrete inbound request presenting `cKeyRec`'s credential, one plain
forwardable header, and one array-valued header. -/
def cReq : ProxyRequest :=
  { apiSlugOrId := "api-1"
  , headers := [ ("host", .str "gw.test"), ("x-api-key", .str "k1")
               , ("accept", .str "application/json"), ("set-cookie", .strs ["a=1"]) ]
  , method := "POST" }

/-! Shape lemmas about `handleProxy`, shared by several claims. -/

theorem handleProxy_effects_shape (deps : ProxyDeps) (req : ProxyRequest)
    (rid now : String) (u : UpstreamOutcome) :
    (handleProxy deps req rid now u).effects = [] ∨
    ∃ k rest, (handleProxy deps req rid now u).effects =
      ProxyEffect.rateCheckE k :: rest := by
  cases hr : deps.registry req.apiSlugOrId with
  | none => left; simp [handleProxy, hr]
  | some e =>
    cases hk : getApiKeyHeader req.headers with
    | none => left; simp [handleProxy, hr, hk]
    | some key =>
      cases hrc : deps.apiKeys key with
      | none => left; simp [handleProxy, hr, hk, hrc]
      | some krec =>
        by_cases hb : krec.apiId ≠ e.id
        · left; simp [handleProxy, hr, hk, hrc, hb]
        · by_cases hal : (deps.rateCheck key).allowed = false
          · right
            exact ⟨key, [], by simp [handleProxy, hr, hk, hrc, hb, hal]⟩
          · by_cases hsucc :
              (deductCredit deps.balances krec.developerId CREDIT_COST_PER_CALL).1.success
                = false
            · right
              exact ⟨key, [.deductE krec.developerId CREDIT_COST_PER_CALL],
                by simp [handleProxy, hr, hk, hrc, hb, hal, hsucc]⟩
            · right
              refine ⟨key,
                [ .deductE krec.developerId CREDIT_COST_PER_CALL
                , .forwardE (buildForwardHeaders deps.stripHeaders req.headers rid)
                , .recordE { id := rid, apiKey := key, apiId := e.id
                           , statusCode := upstreamStatusOf u, timestamp := now } ], ?_⟩
              simp [handleProxy, hr, hk, hrc, hb, hal, hsucc]

theorem handleProxy_recorded_id (deps : ProxyDeps) (req : ProxyRequest)
    (rid now : String) (u : UpstreamOutcome) :
    ∀ e ∈ (handleProxy deps req rid now u).recorded, e.id = rid := by
  cases hr : deps.registry req.apiSlugOrId with
  | none => simp [handleProxy, hr]
  | some e =>
    cases hk : getApiKeyHeader req.headers with
    | none => simp [handleProxy, hr, hk]
    | some key =>
      cases hrc : deps.apiKeys key with
      | none => simp [handleProxy, hr, hk, hrc]
      | some krec =>
        by_cases hb : krec.apiId ≠ e.id
        · simp [handleProxy, hr, hk, hrc, hb]
        · by_cases hal : (deps.rateCheck key).allowed = false
          · simp [handleProxy, hr, hk, hrc, hb, hal]
          · by_cases hsucc :
              (deductCredit deps.balances krec.developerId CREDIT_COST_PER_CALL).1.success
                = false
            · simp [handleProxy, hr, hk, hrc, hb, hal, hsucc]
            · simp [handleProxy, hr, hk, hrc, hb, hal, hsucc]

/-- C1: for a request that reaches the forwarding step, exactly one usage
event is recorded and its `statusCode` equals the final status returned to
the caller; but the recorded event — the `UsageEvent` of `types/gateway.ts`,
which the record call in `proxyRoutes.ts` step 8 constructs — carries no
charged-amount field at all, even though one credit was deducted from the
owner's balance in the billing step. Evaluation of the pipeline at a concrete
forwarded request exhibiting the recorded event verbatim. -/
theorem C1_proxy_event_lacks_charge :
    (handleProxy cDeps cReq "rid" "t" (.ok 200 [])).recorded =
      [{ id := "rid", apiKey := "k1", apiId := "api_1", statusCode := 200
       , timestamp := "t" }] ∧
    (handleProxy cDeps cReq "rid" "t" (.ok 200 [])).response.status = 200 ∧
    cDeps.balances "dev_1"
      - (handleProxy cDeps cReq "rid" "t" (.ok 200 [])).balances "dev_1"
      = CREDIT_COST_PER_CALL := by
  refine ⟨by decide, by decide, ?_⟩
  simp only [handleProxy, cDeps, cReq, cEntry, cKeyRec, getApiKeyHeader, getHeader,
    deductCredit, CREDIT_COST_PER_CALL, String.reduceEq, reduceIte]
  norm_num

/-- C2: when the billing deduction fails, the pipeline terminates with status
402, the response body carries the account's current balance, nothing is
forwarded upstream, no usage event is recorded, and the balances are
untouched. -/
theorem C2_billing_denial_short_circuits
    (deps : ProxyDeps) (req : ProxyRequest) (rid now : String)
    (u : UpstreamOutcome) (apiEntry : ApiRegistryEntry) (k : String) (kr : ApiKeyRec)
    (hreg : deps.registry req.apiSlugOrId = some apiEntry)
    (hkey : getApiKeyHeader req.headers = some k)
    (hrec : deps.apiKeys k = some kr)
    (hbind : kr.apiId = apiEntry.id)
    (hrate : (deps.rateCheck k).allowed = true)
    (hfail : deps.balances kr.developerId < CREDIT_COST_PER_CALL) :
    (handleProxy deps req rid now u).response.status = 402 ∧
    (handleProxy deps req rid now u).response.body =
      ResponseBody.errJsonBalance "Payment Required: insufficient balance"
        (some (deps.balances kr.developerId)) rid ∧
    (handleProxy deps req rid now u).recorded = [] ∧
    (∀ hs, ProxyEffect.forwardE hs ∉ (handleProxy deps req rid now u).effects) ∧
    (∀ e, ProxyEffect.recordE e ∉ (handleProxy deps req rid now u).effects) ∧
    (handleProxy deps req rid now u).balances = deps.balances := by
  have hnotle : ¬ (CREDIT_COST_PER_CALL ≤ deps.balances kr.developerId) :=
    not_le.mpr hfail
  simp [handleProxy, hreg, hkey, hrec, hbind, hrate, deductCredit, hnotle]

/-- Witness for C2 at concrete inputs: balance 0 denies the one-credit
deduction. -/
theorem C2_witness :
    (handleProxy { cDeps with balances := fun _ => 0 } cReq "rid" "t"
        .transportError).response.status = 402 ∧
    (handleProxy { cDeps with balances := fun _ => 0 } cReq "rid" "t"
        .transportError).response.body =
      ResponseBody.errJsonBalance "Payment Required: insufficient balance"
        (some (({ cDeps with balances := fun _ => 0 } : ProxyDeps).balances
          cKeyRec.developerId)) "rid" ∧
    (handleProxy { cDeps with balances := fun _ => 0 } cReq "rid" "t"
        .transportError).recorded = [] ∧
    (∀ hs, ProxyEffect.forwardE hs ∉
      (handleProxy { cDeps with balances := fun _ => 0 } cReq "rid" "t"
        .transportError).effects) ∧
    (∀ e, ProxyEffect.recordE e ∉
      (handleProxy { cDeps with balances := fun _ => 0 } cReq "rid" "t"
        .transportError).effects) ∧
    (handleProxy { cDeps with balances := fun _ => 0 } cReq "rid" "t"
        .transportError).balances =
      ({ cDeps with balances := fun _ => 0 } : ProxyDeps).balances :=
  C2_billing_denial_short_circuits _ _ _ _ _ cEntry "k1" cKeyRec
    (by decide) (by decide) (by decide) (by decide) (by decide)
    (by norm_num [cDeps, CREDIT_COST_PER_CALL])

/-- C3: a request denied by the rate limiter terminates with 429 before any
billing deduction — no deduct effect occurs and the balances are unchanged —
and, on every pipeline execution whatsoever, a deduct effect can only occur
in a trace that begins with the rate-limit check. -/
theorem C3_rate_limit_precedes_billing
    (deps : ProxyDeps) (req : ProxyRequest) (rid now : String)
    (u : UpstreamOutcome) (apiEntry : ApiRegistryEntry) (k : String) (kr : ApiKeyRec)
    (hreg : deps.registry req.apiSlugOrId = some apiEntry)
    (hkey : getApiKeyHeader req.headers = some k)
    (hrec : deps.apiKeys k = some kr)
    (hbind : kr.apiId = apiEntry.id)
    (hdeny : (deps.rateCheck k).allowed = false) :
    (handleProxy deps req rid now u).response.status = 429 ∧
    (∀ d a, ProxyEffect.deductE d a ∉ (handleProxy deps req rid now u).effects) ∧
    (handleProxy deps req rid now u).balances = deps.balances ∧
    (handleProxy deps req rid now u).recorded = [] ∧
    (∀ (deps' : ProxyDeps) (req' : ProxyRequest) (rid' now' : String)
        (u' : UpstreamOutcome) (d : String) (a : ℚ),
      ProxyEffect.deductE d a ∈ (handleProxy deps' req' rid' now' u').effects →
      ∃ key rest, (handleProxy deps' req' rid' now' u').effects =
        ProxyEffect.rateCheckE key :: rest) := by
  refine ⟨?_, ?_, ?_, ?_, ?_⟩
  · simp [handleProxy, hreg, hkey, hrec, hbind, hdeny]
  · simp [handleProxy, hreg, hkey, hrec, hbind, hdeny]
  · simp [handleProxy, hreg, hkey, hrec, hbind, hdeny]
  · simp [handleProxy, hreg, hkey, hrec, hbind, hdeny]
  · intro deps' req' rid' now' u' d a hmem
    rcases handleProxy_effects_shape deps' req' rid' now' u' with hnil | ⟨key, rest, hsh⟩
    · rw [hnil] at hmem
      exact absurd hmem (List.not_mem_nil _)
    · exact ⟨key, rest, hsh⟩

/-- Witness for C3 at concrete inputs: an exhausted limiter with a 2500 ms
retry hint denies the request. -/
theorem C3_witness :
    (handleProxy { cDeps with rateCheck := fun _ => ⟨false, some 2500⟩ } cReq "rid" "t"
        .transportError).response.status = 429 ∧
    (∀ d a, ProxyEffect.deductE d a ∉
      (handleProxy { cDeps with rateCheck := fun _ => ⟨false, some 2500⟩ } cReq "rid" "t"
        .transportError).effects) ∧
    (handleProxy { cDeps with rateCheck := fun _ => ⟨false, some 2500⟩ } cReq "rid" "t"
        .transportError).balances =
      ({ cDeps with rateCheck := fun _ => ⟨false, some 2500⟩ } : ProxyDeps).balances ∧
    (handleProxy { cDeps with rateCheck := fun _ => ⟨false, some 2500⟩ } cReq "rid" "t"
        .transportError).recorded = [] ∧
    (∀ (deps' : ProxyDeps) (req' : ProxyRequest) (rid' now' : String)
        (u' : UpstreamOutcome) (d : String) (a : ℚ),
      ProxyEffect.deductE d a ∈ (handleProxy deps' req' rid' now' u').effects →
      ∃ key rest, (handleProxy deps' req' rid' now' u').effects =
        ProxyEffect.rateCheckE key :: rest) :=
  C3_rate_limit_precedes_billing _ _ _ _ _ cEntry "k1" cKeyRec
    (by decide) (by decide) (by decide) (by decide) (by decide)

/-- C4 counterexample: at a concrete forwarded request whose upstream fetch
throws undici's connect-timeout transport error (`UND_ERR_CONNECT_TIMEOUT`,
a connection failure, not the configured-timeout abort), the proxy returns
504 — not the 502 the claim requires for every connection/transport
failure. -/
theorem C4_counterexample_connect_timeout :
    (handleProxy cDeps cReq "rid" "t" .connectTimeout).response.status = 504 ∧
    ¬ ((handleProxy cDeps cReq "rid" "t" .connectTimeout).response.status = 502) := by
  exact ⟨by decide, by decide⟩

/-- C4 (amended): for every forwarded request, the configured-timeout abort
yields 504, a connect-timeout transport failure also yields 504, any other
connection/transport failure yields 502, and an upstream response's status
code is returned verbatim. -/
theorem C4_upstream_status_mapping
    (deps : ProxyDeps) (req : ProxyRequest) (rid now : String)
    (apiEntry : ApiRegistryEntry) (k : String) (kr : ApiKeyRec)
    (hreg : deps.registry req.apiSlugOrId = some apiEntry)
    (hkey : getApiKeyHeader req.headers = some k)
    (hrec : deps.apiKeys k = some kr)
    (hbind : kr.apiId = apiEntry.id)
    (hrate : (deps.rateCheck k).allowed = true)
    (hbal : CREDIT_COST_PER_CALL ≤ deps.balances kr.developerId) :
    (∀ s hs, (handleProxy deps req rid now (.ok s hs)).response.status = s) ∧
    (handleProxy deps req rid now .timeout).response.status = 504 ∧
    (handleProxy deps req rid now .connectTimeout).response.status = 504 ∧
    (handleProxy deps req rid now .transportError).response.status = 502 := by
  refine ⟨fun s hs => ?_, ?_, ?_, ?_⟩ <;>
    simp [handleProxy, hreg, hkey, hrec, hbind, hrate, deductCredit, hbal,
      upstreamStatusOf]

/-- Witness for C4 (amended) at concrete inputs. -/
theorem C4_witness :
    (∀ s hs, (handleProxy cDeps cReq "rid" "t" (.ok s hs)).response.status = s) ∧
    (handleProxy cDeps cReq "rid" "t" .timeout).response.status = 504 ∧
    (handleProxy cDeps cReq "rid" "t" .connectTimeout).response.status = 504 ∧
    (handleProxy cDeps cReq "rid" "t" .transportError).response.status = 502 :=
  C4_upstream_status_mapping _ _ _ _ cEntry "k1" cKeyRec
    (by decide) (by decide) (by decide) (by decide) (by decide)
    (by norm_num [cDeps, CREDIT_COST_PER_CALL])

/-- C6: a credential unknown to the key store and a known credential bound to
a different API produce identical responses — status 401 with the same error
indicator — and in both runs no rate-limit, billing, forward or record effect
happens and the balances are untouched. -/
theorem C6_invalid_key_indistinguishable
    (deps1 deps2 : ProxyDeps) (req : ProxyRequest) (rid now : String)
    (u1 u2 : UpstreamOutcome) (apiEntry : ApiRegistryEntry) (k : String) (kr : ApiKeyRec)
    (hreg1 : deps1.registry req.apiSlugOrId = some apiEntry)
    (hreg2 : deps2.registry req.apiSlugOrId = some apiEntry)
    (hkey : getApiKeyHeader req.headers = some k)
    (h1 : deps1.apiKeys k = none)
    (h2 : deps2.apiKeys k = some kr)
    (hwrong : kr.apiId ≠ apiEntry.id) :
    (handleProxy deps1 req rid now u1).response =
      (handleProxy deps2 req rid now u2).response ∧
    (handleProxy deps1 req rid now u1).response.status = 401 ∧
    (handleProxy deps1 req rid now u1).response.body =
      ResponseBody.errJson "Unauthorized: invalid API key" rid ∧
    (handleProxy deps1 req rid now u1).effects = [] ∧
    (handleProxy deps2 req rid now u2).effects = [] ∧
    (handleProxy deps1 req rid now u1).recorded = [] ∧
    (handleProxy deps2 req rid now u2).recorded = [] ∧
    (handleProxy deps1 req rid now u1).balances = deps1.balances ∧
    (handleProxy deps2 req rid now u2).balances = deps2.balances := by
  refine ⟨?_, ?_, ?_, ?_, ?_, ?_, ?_, ?_, ?_⟩ <;>
    simp [handleProxy, hreg1, hreg2, hkey, h1, h2, hwrong]

/-- Witness for C6 at concrete inputs: an unknown key versus a key bound to a
different API id. -/
theorem C6_witness :
    (handleProxy { cDeps with apiKeys := fun _ => none } cReq "rid" "t" .timeout).response =
      (handleProxy
        { cDeps with apiKeys := fun k =>
            if k = "k1" then some { key := "k1", developerId := "dev_2", apiId := "api_2" }
            else none }
        cReq "rid" "t" .transportError).response ∧
    (handleProxy { cDeps with apiKeys := fun _ => none } cReq "rid" "t"
        .timeout).response.status = 401 ∧
    (handleProxy { cDeps with apiKeys := fun _ => none } cReq "rid" "t"
        .timeout).response.body =
      ResponseBody.errJson "Unauthorized: invalid API key" "rid" ∧
    (handleProxy { cDeps with apiKeys := fun _ => none } cReq "rid" "t"
        .timeout).effects = [] ∧
    (handleProxy
        { cDeps with apiKeys := fun k =>
            if k = "k1" then some { key := "k1", developerId := "dev_2", apiId := "api_2" }
            else none }
        cReq "rid" "t" .transportError).effects = [] ∧
    (handleProxy { cDeps with apiKeys := fun _ => none } cReq "rid" "t"
        .timeout).recorded = [] ∧
    (handleProxy
        { cDeps with apiKeys := fun k =>
            if k = "k1" then some { key := "k1", developerId := "dev_2", apiId := "api_2" }
            else none }
        cReq "rid" "t" .transportError).recorded = [] ∧
    (handleProxy { cDeps with apiKeys := fun _ => none } cReq "rid" "t"
        .timeout).balances =
      ({ cDeps with apiKeys := fun _ => none } : ProxyDeps).balances ∧
    (handleProxy
        { cDeps with apiKeys := fun k =>
            if k = "k1" then some { key := "k1", developerId := "dev_2", apiId := "api_2" }
            else none }
        cReq "rid" "t" .transportError).balances =
      ({ cDeps with apiKeys := fun k =>
            if k = "k1" then some { key := "k1", developerId := "dev_2", apiId := "api_2" }
            else none } : ProxyDeps).balances :=
  C6_invalid_key_indistinguishable _ _ _ _ _ _ _ cEntry "k1"
    { key := "k1", developerId := "dev_2", apiId := "api_2" }
    (by decide) (by decide) (by decide) (by decide) (by decide) (by decide)

/-- C10: a request that reaches forwarding records exactly one usage event
whose id is the fresh correlation id, the same id is attached to the response
as the `x-request-id` header, and every event recorded by any run carries
that run's correlation id — so runs with distinct correlation ids record
events with distinct ids. -/
theorem C10_correlation_id_joins_event
    (deps : ProxyDeps) (req : ProxyRequest) (rid now : String)
    (u : UpstreamOutcome) (apiEntry : ApiRegistryEntry) (k : String) (kr : ApiKeyRec)
    (hreg : deps.registry req.apiSlugOrId = some apiEntry)
    (hkey : getApiKeyHeader req.headers = some k)
    (hrec : deps.apiKeys k = some kr)
    (hbind : kr.apiId = apiEntry.id)
    (hrate : (deps.rateCheck k).allowed = true)
    (hbal : CREDIT_COST_PER_CALL ≤ deps.balances kr.developerId) :
    (∃ ev, (handleProxy deps req rid now u).recorded = [ev] ∧ ev.id = rid ∧
      respGet (handleProxy deps req rid now u).response.headers "x-request-id"
        = some rid) ∧
    (∀ (deps' : ProxyDeps) (req' : ProxyRequest) (rid' now' : String)
        (u' : UpstreamOutcome) (e : UsageEvent),
      e ∈ (handleProxy deps' req' rid' now' u').recorded → e.id = rid') ∧
    (∀ (deps' : ProxyDeps) (req' : ProxyRequest) (rid' now' : String)
        (u' : UpstreamOutcome), rid' ≠ rid →
      ∀ e' ∈ (handleProxy deps' req' rid' now' u').recorded,
      ∀ e ∈ (handleProxy deps req rid now u).recorded, e'.id ≠ e.id) := by
  refine ⟨?_, ?_, ?_⟩
  · refine ⟨{ id := rid, apiKey := k, apiId := apiEntry.id
            , statusCode := upstreamStatusOf u, timestamp := now }, ?_, rfl, ?_⟩
    · simp [handleProxy, hreg, hkey, hrec, hbind, hrate, deductCredit, hbal]
    · have hh : (handleProxy deps req rid now u).response.headers =
          forwardResponseHeaders rid u := by
        simp [handleProxy, hreg, hkey, hrec, hbind, hrate, deductCredit, hbal]
      rw [hh]
      cases u with
      | ok s hs => exact respGet_respSet_self _ _ _
      | timeout => simp [forwardResponseHeaders, respGet]
      | connectTimeout => simp [forwardResponseHeaders, respGet]
      | transportError => simp [forwardResponseHeaders, respGet]
  · intro deps' req' rid' now' u' e he
    exact handleProxy_recorded_id deps' req' rid' now' u' e he
  · intro deps' req' rid' now' u' hne e' he' e he
    rw [handleProxy_recorded_id deps' req' rid' now' u' e' he',
      handleProxy_recorded_id deps req rid now u e he]
    exact hne

/-- Witness for C10 at concrete inputs. -/
theorem C10_witness :
    (∃ ev, (handleProxy cDeps cReq "rid" "t" (.ok 200 [])).recorded = [ev] ∧
      ev.id = "rid" ∧
      respGet (handleProxy cDeps cReq "rid" "t" (.ok 200 [])).response.headers
        "x-request-id" = some "rid") ∧
    (∀ (deps' : ProxyDeps) (req' : ProxyRequest) (rid' now' : String)
        (u' : UpstreamOutcome) (e : UsageEvent),
      e ∈ (handleProxy deps' req' rid' now' u').recorded → e.id = rid') ∧
    (∀ (deps' : ProxyDeps) (req' : ProxyRequest) (rid' now' : String)
        (u' : UpstreamOutcome), rid' ≠ "rid" →
      ∀ e' ∈ (handleProxy deps' req' rid' now' u').recorded,
      ∀ e ∈ (handleProxy cDeps cReq "rid" "t" (.ok 200 [])).recorded,
        e'.id ≠ e.id) :=
  C10_correlation_id_joins_event _ _ _ _ _ cEntry "k1" cKeyRec
    (by decide) (by decide) (by decide) (by decide) (by decide)
    (by norm_num [cDeps, CREDIT_COST_PER_CALL])

/-- Spec-level view of one header copy: the binding the loop would add for an
inbound entry, if any. -/
def forwardCopy (strip : List String) (p : String × HeaderValue) :
    Option (String × String) :=
  if strip.any (fun s => s.toLower == p.1.toLower) then none
  else match p.2 with
    | .str v => some (p.1, v)
    | .strs _ => none

theorem foldl_forwardCopyStep (strip : List String) :
    ∀ (hs : Headers) (acc : List (String × String)),
      (hs.map Prod.fst).Nodup →
      (∀ a ∈ acc, a.1 ∉ hs.map Prod.fst) →
      hs.foldl (forwardCopyStep strip) acc = acc ++ hs.filterMap (forwardCopy strip)
  | [], acc, _, _ => by simp
  | p :: rest, acc, hnd, hdisj => by
      have hndr : (rest.map Prod.fst).Nodup := (List.nodup_cons.mp hnd).2
      have hpn : p.1 ∉ rest.map Prod.fst := (List.nodup_cons.mp hnd).1
      have hdisjr : ∀ a ∈ acc, a.1 ∉ rest.map Prod.fst := fun a ha =>
        fun hmem => hdisj a ha (by simp [hmem])
      by_cases hstrip : strip.any (fun s => s.toLower == p.1.toLower) = true
      · rw [List.foldl_cons]
        have hstep : forwardCopyStep strip acc p = acc := by
          simp [forwardCopyStep, hstrip]
        have hcopy : forwardCopy strip p = none := by
          simp [forwardCopy, hstrip]
        rw [hstep, List.filterMap_cons, hcopy]
        exact foldl_forwardCopyStep strip rest acc hndr hdisjr
      · cases hv : p.2 with
        | str v =>
            rw [List.foldl_cons]
            have hpacc : p.1 ∉ acc.map Prod.fst := by
              intro hmem
              rcases List.mem_map.mp hmem with ⟨a, ha, hfst⟩
              exact hdisj a ha (by simp [hfst])
            have hstep : forwardCopyStep strip acc p = acc ++ [(p.1, v)] := by
              simp only [forwardCopyStep, if_neg hstrip, hv]
              exact objSet_of_not_mem _ _ _ hpacc
            have hcopy : forwardCopy strip p = some (p.1, v) := by
              simp [forwardCopy, hstrip, hv]
            rw [hstep, List.filterMap_cons, hcopy]
            have hdisj2 : ∀ a ∈ acc ++ [(p.1, v)], a.1 ∉ rest.map Prod.fst := by
              intro a ha
              rcases List.mem_append.mp ha with ha' | ha'
              · exact hdisjr a ha'
              · simp only [List.mem_singleton] at ha'
                subst ha'
                exact hpn
            rw [foldl_forwardCopyStep strip rest (acc ++ [(p.1, v)]) hndr hdisj2]
            simp
        | strs l =>
            rw [List.foldl_cons]
            have hstep : forwardCopyStep strip acc p = acc := by
              simp [forwardCopyStep, hstrip, hv]
            have hcopy : forwardCopy strip p = none := by
              simp [forwardCopy, hstrip, hv]
            rw [hstep, List.filterMap_cons, hcopy]
            exact foldl_forwardCopyStep strip rest acc hndr hdisjr

theorem objGet_filterMap_iff (strip : List String) :
    ∀ (hs : Headers), (hs.map Prod.fst).Nodup → ∀ (k v : String),
      (objGet (hs.filterMap (forwardCopy strip)) k = some v ↔
        ((k, HeaderValue.str v) ∈ hs ∧
          strip.any (fun s => s.toLower == k.toLower) = false))
  | [], _, k, v => by simp [objGet]
  | p :: rest, hnd, k, v => by
      have hndr : (rest.map Prod.fst).Nodup := (List.nodup_cons.mp hnd).2
      have hpn : p.1 ∉ rest.map Prod.fst := (List.nodup_cons.mp hnd).1
      rw [List.filterMap_cons]
      cases hcopy : forwardCopy strip p with
      | none =>
          rw [objGet_filterMap_iff strip rest hndr k v]
          constructor
          · rintro ⟨hmem, hstrip⟩
            exact ⟨List.mem_cons_of_mem _ hmem, hstrip⟩
          · rintro ⟨hmem, hstrip⟩
            rcases List.mem_cons.mp hmem with heq | hmem'
            · exfalso
              rw [← heq] at hcopy
              simp only [forwardCopy] at hcopy
              rw [if_neg (by simp [hstrip])] at hcopy
              exact Option.some_ne_none _ hcopy
            · exact ⟨hmem', hstrip⟩
      | some q =>
          have hq : q = (p.1, q.2) ∧ p.2 = HeaderValue.str q.2 ∧
              strip.any (fun s => s.toLower == p.1.toLower) = false := by
            simp only [forwardCopy] at hcopy
            by_cases hstrip : strip.any (fun s => s.toLower == p.1.toLower) = true
            · rw [if_pos hstrip] at hcopy
              exact absurd hcopy (by simp)
            · rw [if_neg hstrip] at hcopy
              cases hv : p.2 with
              | str w =>
                  rw [hv] at hcopy
                  have hqe : q = (p.1, w) := by
                    injection hcopy with h
                    exact h.symm
                  refine ⟨?_, ?_, by simpa using hstrip⟩
                  · rw [hqe]
                  · rw [hqe]
              | strs l =>
                  rw [hv] at hcopy
                  exact absurd hcopy (by simp)
          by_cases hk : p.1 = k
          · have hlk : q.1 = k := by rw [hq.1]; exact hk
            rw [objGet, if_pos hlk]
            constructor
            · intro hv
              have hveq : q.2 = v := by injection hv
              refine ⟨?_, ?_⟩
              · have hp : p = (k, HeaderValue.str v) := by
                  rcases p with ⟨p1, p2⟩
                  have hk' : p1 = k := hk
                  have h2 : p2 = HeaderValue.str v := by
                    have hthis := hq.2.1
                    simp only at hthis
                    rw [hthis, hveq]
                  rw [hk', h2]
                rw [← hp]
                exact List.mem_cons_self _ _
              · have hs2 := hq.2.2
                rw [hk] at hs2
                exact hs2
            · rintro ⟨hmem, _⟩
              rcases List.mem_cons.mp hmem with heq | hmem'
              · have : p.2 = HeaderValue.str v := by rw [← heq]
                rw [hq.2.1] at this
                have hv2 : q.2 = v := by injection this
                rw [hv2]
              · exfalso
                apply hpn
                rw [hk]
                exact List.mem_map.mpr ⟨(k, HeaderValue.str v), hmem', rfl⟩
          · have hlk : ¬ (q.1 = k) := by rw [hq.1]; exact hk
            rw [objGet, if_neg hlk]
            rw [objGet_filterMap_iff strip rest hndr k v]
            constructor
            · rintro ⟨hmem, hstrip⟩
              exact ⟨List.mem_cons_of_mem _ hmem, hstrip⟩
            · rintro ⟨hmem, hstrip⟩
              rcases List.mem_cons.mp hmem with heq | hmem'
              · exfalso
                apply hk
                rw [← heq]
              · exact ⟨hmem', hstrip⟩

/-- C5 counterexample: in a concrete forwarded request, the inbound
`set-cookie` header — absent from the fixed strip-list but carrying an array
value, as Node delivers repeated headers — is not present in the outbound
header set the pipeline forwards, so not every inbound header off the
strip-list is forwarded. -/
theorem C5_counterexample_multivalued_header_dropped :
    ProxyEffect.forwardE (buildForwardHeaders DEFAULT_STRIP_HEADERS cReq.headers "rid")
      ∈ (handleProxy cDeps cReq "rid" "t" (.ok 200 [])).effects ∧
    getHeader cReq.headers "set-cookie" = some (.strs ["a=1"]) ∧
    "set-cookie" ∉ DEFAULT_STRIP_HEADERS ∧
    objGet (buildForwardHeaders DEFAULT_STRIP_HEADERS cReq.headers "rid") "set-cookie"
      = none := by
  refine ⟨?_, by decide, by decide, ?_⟩
  · simp [handleProxy, cDeps, cReq, cEntry, cKeyRec, getApiKeyHeader, getHeader,
      deductCredit, CREDIT_COST_PER_CALL, String.reduceEq, reduceIte]
  · have hfold : cReq.headers.foldl (forwardCopyStep DEFAULT_STRIP_HEADERS) [] =
        cReq.headers.filterMap (forwardCopy DEFAULT_STRIP_HEADERS) := by
      have h := foldl_forwardCopyStep DEFAULT_STRIP_HEADERS cReq.headers []
        (by decide) (by simp)
      simpa using h
    cases hob : objGet (buildForwardHeaders DEFAULT_STRIP_HEADERS cReq.headers "rid")
        "set-cookie" with
    | none => rfl
    | some v =>
        exfalso
        rw [buildForwardHeaders, objGet_objSet_other _ _ _ _ (by decide), hfold] at hob
        have hmem := (objGet_filterMap_iff DEFAULT_STRIP_HEADERS cReq.headers
          (by decide) "set-cookie" v).mp hob
        simp [cReq] at hmem

/-- C5 (amended): the outbound header set contains the fresh `x-request-id`
binding, and apart from it holds exactly the inbound headers with a single
string value whose names are not on the fixed strip-list, matched
case-insensitively — inbound headers with array values are dropped. The
pipeline forwards exactly this header set. -/
theorem C5_forward_headers_characterization (hs : Headers) (rid : String)
    (hnd : (hs.map Prod.fst).Nodup) :
    objGet (buildForwardHeaders DEFAULT_STRIP_HEADERS hs rid) "x-request-id"
      = some rid ∧
    (∀ k v, k ≠ "x-request-id" →
      (objGet (buildForwardHeaders DEFAULT_STRIP_HEADERS hs rid) k = some v ↔
        ((k, HeaderValue.str v) ∈ hs ∧
          DEFAULT_STRIP_HEADERS.any (fun s => s.toLower == k.toLower) = false))) ∧
    (∀ (deps : ProxyDeps) (req : ProxyRequest) (rid' now' : String)
        (u : UpstreamOutcome) (apiEntry : ApiRegistryEntry) (k : String)
        (kr : ApiKeyRec),
      deps.registry req.apiSlugOrId = some apiEntry →
      getApiKeyHeader req.headers = some k →
      deps.apiKeys k = some kr →
      kr.apiId = apiEntry.id →
      (deps.rateCheck k).allowed = true →
      CREDIT_COST_PER_CALL ≤ deps.balances kr.developerId →
      deps.stripHeaders = DEFAULT_STRIP_HEADERS →
      ProxyEffect.forwardE
          (buildForwardHeaders DEFAULT_STRIP_HEADERS req.headers rid')
        ∈ (handleProxy deps req rid' now' u).effects) := by
  have hfold : hs.foldl (forwardCopyStep DEFAULT_STRIP_HEADERS) [] =
      hs.filterMap (forwardCopy DEFAULT_STRIP_HEADERS) := by
    have h := foldl_forwardCopyStep DEFAULT_STRIP_HEADERS hs [] hnd (by simp)
    simpa using h
  refine ⟨?_, ?_, ?_⟩
  · rw [buildForwardHeaders]
    exact objGet_objSet_self _ _ _
  · intro k v hk
    rw [buildForwardHeaders, objGet_objSet_other _ _ _ _ hk, hfold]
    exact objGet_filterMap_iff DEFAULT_STRIP_HEADERS hs hnd k v
  · intro deps req rid' now' u apiEntry k kr hreg hkey hrec hbind hrate hbal hstrip
    simp [handleProxy, hreg, hkey, hrec, hbind, hrate, deductCredit, hbal, hstrip]

/-- Witness for C5 (amended) at a concrete header object. -/
theorem C5_witness :
    objGet (buildForwardHeaders DEFAULT_STRIP_HEADERS cReq.headers "rid")
      "x-request-id" = some "rid" ∧
    (∀ k v, k ≠ "x-request-id" →
      (objGet (buildForwardHeaders DEFAULT_STRIP_HEADERS cReq.headers "rid") k
          = some v ↔
        ((k, HeaderValue.str v) ∈ cReq.headers ∧
          DEFAULT_STRIP_HEADERS.any (fun s => s.toLower == k.toLower) = false))) ∧
    (∀ (deps : ProxyDeps) (req : ProxyRequest) (rid' now' : String)
        (u : UpstreamOutcome) (apiEntry : ApiRegistryEntry) (k : String)
        (kr : ApiKeyRec),
      deps.registry req.apiSlugOrId = some apiEntry →
      getApiKeyHeader req.headers = some k →
      deps.apiKeys k = some kr →
      kr.apiId = apiEntry.id →
      (deps.rateCheck k).allowed = true →
      CREDIT_COST_PER_CALL ≤ deps.balances kr.developerId →
      deps.stripHeaders = DEFAULT_STRIP_HEADERS →
      ProxyEffect.forwardE
          (buildForwardHeaders DEFAULT_STRIP_HEADERS req.headers rid')
        ∈ (handleProxy deps req rid' now' u).effects) :=
  C5_forward_headers_characterization cReq.headers "rid" (by decide)

/-! Lemmas about the settlement-side data operations. -/

theorem mapLookup_mapSet_self (m : List (String × List SUsageEvent))
    (k : String) (v : List SUsageEvent) : mapLookup (mapSet m k v) k = some v := by
  induction m with
  | nil => simp [mapSet, mapLookup]
  | cons p rest ih =>
      by_cases h : p.1 = k
      · simp [mapSet, h, mapLookup]
      · rw [mapSet, if_neg h, mapLookup, if_neg h]
        exact ih

theorem mapLookup_mapSet_other (m : List (String × List SUsageEvent))
    (k k' : String) (v : List SUsageEvent) (h : k' ≠ k) :
    mapLookup (mapSet m k v) k' = mapLookup m k' := by
  induction m with
  | nil =>
      have h1 : ¬ (((k, v) : String × List SUsageEvent).1 = k') := fun hh => h hh.symm
      rw [mapSet]
      simp only [mapLookup]
      rw [if_neg h1]
  | cons p rest ih =>
      by_cases hp : p.1 = k
      · have h1 : ¬ (((k, v) : String × List SUsageEvent).1 = k') := fun hh => h hh.symm
        have h2 : ¬ (p.1 = k') := fun hh => h (hh.symm.trans hp)
        rw [mapSet, if_pos hp]
        simp only [mapLookup]
        rw [if_neg h1, if_neg h2]
      · rw [mapSet, if_neg hp, mapLookup, mapLookup]
        by_cases hk' : p.1 = k'
        · rw [if_pos hk', if_pos hk']
        · rw [if_neg hk', if_neg hk']
          exact ih

theorem mapSet_mem (m : List (String × List SUsageEvent)) (k : String)
    (v : List SUsageEvent) (p : String × List SUsageEvent)
    (h : p ∈ mapSet m k v) : p = (k, v) ∨ p ∈ m := by
  induction m with
  | nil => simpa [mapSet] using h
  | cons q rest ih =>
      by_cases hq : q.1 = k
      · rw [mapSet, if_pos hq] at h
        rcases List.mem_cons.mp h with h' | h'
        · exact Or.inl h'
        · exact Or.inr (List.mem_cons_of_mem _ h')
      · rw [mapSet, if_neg hq] at h
        rcases List.mem_cons.mp h with h' | h'
        · exact Or.inr (h' ▸ List.mem_cons_self _ _)
        · rcases ih h' with h'' | h''
          · exact Or.inl h''
          · exact Or.inr (List.mem_cons_of_mem _ h'')

theorem mapSet_keys (m : List (String × List SUsageEvent)) (k : String)
    (v : List SUsageEvent) :
    (mapSet m k v).map Prod.fst =
      if k ∈ m.map Prod.fst then m.map Prod.fst else m.map Prod.fst ++ [k] := by
  induction m with
  | nil => simp [mapSet]
  | cons p rest ih =>
      by_cases hp : p.1 = k
      · rw [mapSet, if_pos hp]
        simp [hp]
      · rw [mapSet, if_neg hp]
        by_cases hmem : k ∈ rest.map Prod.fst
        · simp only [List.map_cons, List.mem_cons]
          rw [if_pos (Or.inr hmem)]
          simp only [List.map_cons] at ih ⊢
          rw [ih, if_pos hmem]
        · simp only [List.map_cons, List.mem_cons]
          rw [if_neg (by
            push_neg
            exact ⟨fun hh => hp hh.symm, hmem⟩)]
          simp only [List.map_cons] at ih ⊢
          rw [ih, if_neg hmem]
          simp

theorem mapSet_keys_nodup (m : List (String × List SUsageEvent)) (k : String)
    (v : List SUsageEvent) (h : (m.map Prod.fst).Nodup) :
    ((mapSet m k v).map Prod.fst).Nodup := by
  rw [mapSet_keys]
  by_cases hmem : k ∈ m.map Prod.fst
  · rw [if_pos hmem]; exact h
  · rw [if_neg hmem]
    refine List.Nodup.append h (List.nodup_singleton _) ?_
    intro a ha hb
    rw [List.mem_singleton] at hb
    exact hmem (hb ▸ ha)

theorem mem_of_mapLookup (m : List (String × List SUsageEvent)) (k : String)
    (v : List SUsageEvent) (h : mapLookup m k = some v) : (k, v) ∈ m := by
  induction m with
  | nil => simp [mapLookup] at h
  | cons p rest ih =>
      by_cases hp : p.1 = k
      · rw [mapLookup, if_pos hp] at h
        have : p = (k, v) := by
          rcases p with ⟨p1, p2⟩
          have h2 : p2 = v := by injection h
          simp only at hp
          rw [hp, h2]
        exact this ▸ List.mem_cons_self _ _
      · rw [mapLookup, if_neg hp] at h
        exact List.mem_cons_of_mem _ (ih h)

theorem mapLookup_of_mem_nodup (m : List (String × List SUsageEvent))
    (k : String) (v : List SUsageEvent) (hnd : (m.map Prod.fst).Nodup)
    (h : (k, v) ∈ m) : mapLookup m k = some v := by
  induction m with
  | nil => simp at h
  | cons p rest ih =>
      have hndr : (rest.map Prod.fst).Nodup := (List.nodup_cons.mp hnd).2
      have hpn : p.1 ∉ rest.map Prod.fst := (List.nodup_cons.mp hnd).1
      rcases List.mem_cons.mp h with heq | hmem
      · rw [← heq, mapLookup, if_pos rfl]
      · have hpk : ¬ (p.1 = k) := by
          intro hh
          apply hpn
          rw [hh]
          exact List.mem_map.mpr ⟨(k, v), hmem, rfl⟩
        rw [mapLookup, if_neg hpk]
        exact ih hndr hmem

theorem belongsTo_functional (registry : String → Option ApiRegistryEntry)
    (d d' : String) (e : SUsageEvent) (h1 : belongsTo registry d e = true)
    (h2 : belongsTo registry d' e = true) : d = d' := by
  simp only [belongsTo] at h1 h2
  by_cases hamt : e.amountUsdc ≤ 0
  · rw [if_pos hamt] at h1; exact absurd h1 (by simp)
  · rw [if_neg hamt] at h1 h2
    cases hreg : registry e.apiId with
    | none => rw [hreg] at h1; exact absurd h1 (by simp)
    | some a =>
        rw [hreg] at h1 h2
        simp only [decide_eq_true_eq] at h1 h2
        rw [← h1, ← h2]

theorem mark_mem_of_not_mem_ids (usage : List SUsageEvent) (ids : List String)
    (sid : String) (e : SUsageEvent) (he : e ∈ usage) (hid : e.id ∉ ids) :
    e ∈ markAsSettled usage ids sid := by
  rw [markAsSettled]
  have : (fun e' => if e'.id ∈ ids then { e' with settlementId := some sid } else e') e
      = e := by
    simp [hid]
  exact this ▸ List.mem_map_of_mem _ he

theorem mark_mem_of_mem_ids (usage : List SUsageEvent) (ids : List String)
    (sid : String) (e : SUsageEvent) (he : e ∈ usage) (hid : e.id ∈ ids) :
    { e with settlementId := some sid } ∈ markAsSettled usage ids sid := by
  rw [markAsSettled]
  have : (fun e' => if e'.id ∈ ids then { e' with settlementId := some sid } else e') e
      = { e with settlementId := some sid } := by
    simp [hid]
  exact this ▸ List.mem_map_of_mem _ he

theorem updateStatus_nil (t : String) (st : SettlementStatus) (tx : Option String) :
    updateStatus [] t st tx = [] := rfl

theorem updateStatus_cons (s : Settlement) (rest : List Settlement) (t : String)
    (st : SettlementStatus) (tx : Option String) :
    updateStatus (s :: rest) t st tx =
      if s.id = t then
        { s with status := st
               , tx_hash := (match tx with | some h => some h | none => s.tx_hash) }
          :: rest
      else s :: updateStatus rest t st tx := rfl

theorem updateStatus_devIds (l : List Settlement) (t : String)
    (st : SettlementStatus) (tx : Option String) :
    (updateStatus l t st tx).map (·.developerId) = l.map (·.developerId) := by
  induction l with
  | nil => rfl
  | cons s rest ih =>
      rw [updateStatus_cons]
      by_cases hs : s.id = t
      · rw [if_pos hs]
        simp
      · rw [if_neg hs]
        simp only [List.map_cons]
        rw [ih]

theorem updateStatus_of_no_match (l : List Settlement) (t : String)
    (st : SettlementStatus) (tx : Option String)
    (h : ∀ s ∈ l, ¬ (s.id = t)) : updateStatus l t st tx = l := by
  induction l with
  | nil => rfl
  | cons s rest ih =>
      rw [updateStatus_cons, if_neg (h s (List.mem_cons_self _ _))]
      exact congrArg (s :: ·) (ih (fun s' hs' => h s' (List.mem_cons_of_mem _ hs')))

theorem updateStatus_filter_ne (l : List Settlement) (t sid : String)
    (st : SettlementStatus) (tx : Option String) (h : t ≠ sid) :
    (updateStatus l t st tx).filter (fun s => s.id = sid) =
      l.filter (fun s => s.id = sid) := by
  induction l with
  | nil => rfl
  | cons s rest ih =>
      rw [updateStatus_cons]
      by_cases hs : s.id = t
      · rw [if_pos hs]
        have h1 : ¬ (s.id = sid) := fun hh => h (hs.symm.trans hh)
        rw [List.filter_cons, List.filter_cons, if_neg (by simpa using h1),
          if_neg (by simpa using (fun hh : s.id = sid => h1 hh))]
      · rw [if_neg hs, List.filter_cons, List.filter_cons]
        by_cases h2 : s.id = sid
        · rw [if_pos (by simpa using h2), if_pos (by simpa using h2), ih]
        · rw [if_neg (by simpa using h2), if_neg (by simpa using h2)]
          exact ih

theorem updateStatus_filter_self (l : List Settlement) (t : String)
    (st : SettlementStatus) (tx : Option String) (x : Settlement)
    (h : l.filter (fun s => s.id = t) = [x]) :
    (updateStatus l t st tx).filter (fun s => s.id = t) =
      [{ x with
          status := st,
          tx_hash := (match tx with | some hh => some hh | none => x.tx_hash) }] := by
  induction l with
  | nil => simp at h
  | cons s rest ih =>
      rw [updateStatus_cons]
      by_cases hs : s.id = t
      · rw [List.filter_cons, if_pos (by simpa using hs)] at h
        have hsx : s = x := (List.cons_eq_cons.mp h).1
        have hrest : rest.filter (fun s => s.id = t) = [] := (List.cons_eq_cons.mp h).2
        rw [if_pos hs, List.filter_cons, if_pos (by simpa using hs), hrest, hsx]
      · rw [List.filter_cons, if_neg (by simpa using hs)] at h
        rw [if_neg hs, List.filter_cons, if_neg (by simpa using hs)]
        exact ih h

/-! Lemmas about the grouping pass. -/

theorem groupStep_keys_nodup (maxE : Nat) (reg : String → Option ApiRegistryEntry)
    (acc : List (String × List SUsageEvent)) (e : SUsageEvent)
    (h : (acc.map Prod.fst).Nodup) :
    ((groupStep maxE reg acc e).map Prod.fst).Nodup := by
  rw [groupStep]
  by_cases hamt : e.amountUsdc ≤ 0
  · rw [if_pos hamt]; exact h
  · rw [if_neg hamt]
    cases hreg : reg e.apiId with
    | none => exact h
    | some a =>
        simp only
        by_cases hlen : ((mapLookup acc a.developerId).getD []).length < maxE
        · rw [if_pos hlen]
          exact mapSet_keys_nodup _ _ _ h
        · rw [if_neg hlen]; exact h

theorem foldl_groupStep_keys_nodup (maxE : Nat)
    (reg : String → Option ApiRegistryEntry) :
    ∀ (events : List SUsageEvent) (acc : List (String × List SUsageEvent)),
      (acc.map Prod.fst).Nodup →
      ((events.foldl (groupStep maxE reg) acc).map Prod.fst).Nodup
  | [], _, h => h
  | e :: es, acc, h =>
      foldl_groupStep_keys_nodup maxE reg es _ (groupStep_keys_nodup maxE reg acc e h)

theorem groupByDeveloper_keys_nodup (maxE : Nat)
    (reg : String → Option ApiRegistryEntry) (events : List SUsageEvent) :
    ((groupByDeveloper maxE reg events).map Prod.fst).Nodup :=
  foldl_groupStep_keys_nodup maxE reg events [] (by simp)

theorem foldl_groupStep_sound (maxE : Nat) (reg : String → Option ApiRegistryEntry)
    (src : List SUsageEvent) :
    ∀ (events : List SUsageEvent) (acc : List (String × List SUsageEvent)),
      (∀ p ∈ acc, ∀ e ∈ p.2, e ∈ src ∧ belongsTo reg p.1 e = true) →
      (∀ e ∈ events, e ∈ src) →
      ∀ p ∈ events.foldl (groupStep maxE reg) acc, ∀ e ∈ p.2,
        e ∈ src ∧ belongsTo reg p.1 e = true
  | [], _, hacc, _ => hacc
  | e :: es, acc, hacc, hev => by
      have hesrc : ∀ e' ∈ es, e' ∈ src := fun e' he' =>
        hev e' (List.mem_cons_of_mem _ he')
      refine foldl_groupStep_sound maxE reg src es (groupStep maxE reg acc e) ?_ hesrc
      intro p hp e' he'
      rw [groupStep] at hp
      by_cases hamt : e.amountUsdc ≤ 0
      · rw [if_pos hamt] at hp
        exact hacc p hp e' he'
      · rw [if_neg hamt] at hp
        cases hreg : reg e.apiId with
        | none =>
            rw [hreg] at hp
            exact hacc p hp e' he'
        | some a =>
            rw [hreg] at hp
            simp only at hp
            by_cases hlen : ((mapLookup acc a.developerId).getD []).length < maxE
            · rw [if_pos hlen] at hp
              rcases mapSet_mem _ _ _ _ hp with heq | hmem
              · subst heq
                simp only at he' ⊢
                rcases List.mem_append.mp he' with hg | he
                · cases hlk : mapLookup acc a.developerId with
                  | none => rw [hlk] at hg; simp at hg
                  | some g =>
                      rw [hlk] at hg
                      simp only [Option.getD_some] at hg
                      exact hacc _ (mem_of_mapLookup _ _ _ hlk) e' hg
                · rw [List.mem_singleton] at he
                  subst he
                  refine ⟨hev e' (List.mem_cons_self _ _), ?_⟩
                  rw [belongsTo, if_neg hamt, hreg]
                  simp
              · exact hacc p hmem e' he'
            · rw [if_neg hlen] at hp
              exact hacc p hp e' he'

theorem groupByDeveloper_sound (maxE : Nat)
    (reg : String → Option ApiRegistryEntry) (events : List SUsageEvent) :
    ∀ p ∈ groupByDeveloper maxE reg events, ∀ e ∈ p.2,
      e ∈ events ∧ belongsTo reg p.1 e = true :=
  foldl_groupStep_sound maxE reg events events [] (by simp) (fun _ he => he)

/-- Spec-level accumulator describing how the per-owner cap fills a group:
append each event while the group holds fewer than `maxE` events. -/
def capAdd (maxE : Nat) : Option (List SUsageEvent) → List SUsageEvent →
    Option (List SUsageEvent)
  | g, [] => g
  | g, e :: es =>
      if (g.getD []).length < maxE then capAdd maxE (some (g.getD [] ++ [e])) es
      else capAdd maxE g es

theorem groupStep_lookup (maxE : Nat) (reg : String → Option ApiRegistryEntry)
    (acc : List (String × List SUsageEvent)) (e : SUsageEvent) (d : String) :
    mapLookup (groupStep maxE reg acc e) d =
      if belongsTo reg d e = true then
        (if ((mapLookup acc d).getD []).length < maxE
         then some ((mapLookup acc d).getD [] ++ [e])
         else mapLookup acc d)
      else mapLookup acc d := by
  rw [groupStep]
  by_cases hamt : e.amountUsdc ≤ 0
  · rw [if_pos hamt, if_neg (by rw [belongsTo, if_pos hamt]; simp)]
  · rw [if_neg hamt]
    cases hreg : reg e.apiId with
    | none =>
        rw [if_neg (by rw [belongsTo, if_neg hamt, hreg]; simp)]
    | some a =>
        simp only
        by_cases hd : a.developerId = d
        · subst hd
          have hb : belongsTo reg a.developerId e = true := by
            rw [belongsTo, if_neg hamt, hreg]; simp
          rw [if_pos hb]
          by_cases hlen : ((mapLookup acc a.developerId).getD []).length < maxE
          · rw [if_pos hlen, if_pos hlen]
            exact mapLookup_mapSet_self _ _ _
          · rw [if_neg hlen, if_neg hlen]
        · have hb : ¬ (belongsTo reg d e = true) := by
            rw [belongsTo, if_neg hamt, hreg]
            simpa using hd
          rw [if_neg hb]
          by_cases hlen : ((mapLookup acc a.developerId).getD []).length < maxE
          · rw [if_pos hlen]
            exact mapLookup_mapSet_other _ _ _ _ (fun hh => hd hh.symm)
          · rw [if_neg hlen]

theorem foldl_groupStep_lookup (maxE : Nat)
    (reg : String → Option ApiRegistryEntry) :
    ∀ (events : List SUsageEvent) (acc : List (String × List SUsageEvent))
      (d : String),
      mapLookup (events.foldl (groupStep maxE reg) acc) d =
        capAdd maxE (mapLookup acc d) (events.filter (belongsTo reg d))
  | [], acc, d => by simp [capAdd]
  | e :: es, acc, d => by
      rw [List.foldl_cons, List.filter_cons]
      by_cases hb : belongsTo reg d e = true
      · rw [if_pos (by simpa using hb), capAdd,
          foldl_groupStep_lookup maxE reg es _ d, groupStep_lookup, if_pos hb]
        by_cases hlen : ((mapLookup acc d).getD []).length < maxE
        · rw [if_pos hlen, if_pos hlen]
        · rw [if_neg hlen, if_neg hlen]
      · rw [if_neg (by simpa using hb),
          foldl_groupStep_lookup maxE reg es _ d, groupStep_lookup, if_neg hb]

theorem capAdd_some (maxE : Nat) :
    ∀ (l cur : List SUsageEvent), cur.length ≤ maxE →
      capAdd maxE (some cur) l = some (cur ++ l.take (maxE - cur.length))
  | [], cur, _ => by simp [capAdd]
  | e :: es, cur, h => by
      rw [capAdd]
      simp only [Option.getD_some]
      by_cases hlen : cur.length < maxE
      · rw [if_pos hlen,
          capAdd_some maxE es (cur ++ [e]) (by simpa using hlen)]
        have harith : maxE - cur.length = (maxE - (cur ++ [e]).length) + 1 := by
          simp only [List.length_append, List.length_singleton]
          omega
        rw [harith, List.take_succ_cons]
        simp
      · rw [if_neg hlen]
        have h0 : maxE - cur.length = 0 := by omega
        rw [capAdd_some maxE es cur h, h0]
        simp

theorem capAdd_none_of_ne_nil (maxE : Nat) (l : List SUsageEvent)
    (hpos : 0 < maxE) (hne : l ≠ []) :
    capAdd maxE none l = some (l.take maxE) := by
  cases l with
  | nil => exact absurd rfl hne
  | cons e es =>
      rw [capAdd]
      simp only [Option.getD_none, List.length_nil]
      rw [if_pos hpos, List.nil_append,
        capAdd_some maxE es [e] (by simpa using hpos)]
      rw [show (e :: es).take maxE = (e :: es).take ((maxE - 1) + 1) from by
        congr 1
        omega]
      rw [List.take_succ_cons]
      simp [List.length_singleton]

theorem groupByDeveloper_lookup (maxE : Nat)
    (reg : String → Option ApiRegistryEntry) (events : List SUsageEvent)
    (d : String) (hpos : 0 < maxE)
    (hne : events.filter (belongsTo reg d) ≠ []) :
    mapLookup (groupByDeveloper maxE reg events) d =
      some ((events.filter (belongsTo reg d)).take maxE) := by
  rw [groupByDeveloper, foldl_groupStep_lookup]
  show capAdd maxE (mapLookup [] d) (events.filter (belongsTo reg d)) = _
  rw [show mapLookup [] d = none from rfl]
  exact capAdd_none_of_ne_nil maxE _ hpos hne

/-! Lemmas about the per-owner settlement pass. -/

/-- The pending settlement record `runBatch` creates for a group. -/
def pendingOf (newId : String → String) (now d : String)
    (evs : List SUsageEvent) : Settlement :=
  { id := newId d, developerId := d, amount := sumAmount evs
  , status := .pending, tx_hash := none, created_at := now }

theorem processGroup_skip (minP : ℚ) (dist : String → ℚ → DistributeResult)
    (newId : String → String) (now : String) (st : BatchState)
    (en : String × List SUsageEvent) (h : sumAmount en.2 < minP) :
    processGroup minP dist newId now st en = st := by
  simp only [processGroup]
  rw [if_pos h]

theorem processGroup_success (minP : ℚ) (dist : String → ℚ → DistributeResult)
    (newId : String → String) (now : String) (st : BatchState) (d : String)
    (evs : List SUsageEvent) (hmin : ¬ (sumAmount evs < minP))
    (hsucc : ((dist d (sumAmount evs)).success
      && txTruthy (dist d (sumAmount evs)).txHash) = true) :
    processGroup minP dist newId now st (d, evs) =
      { settlements := updateStatus (st.settlements ++ [pendingOf newId now d evs])
          (newId d) .completed (dist d (sumAmount evs)).txHash
      , usage := markAsSettled st.usage (evs.map (·.id)) (newId d)
      , processed := st.processed + evs.length
      , settledAmount := st.settledAmount + sumAmount evs
      , errors := st.errors
      , trace := (st.trace ++ [.createE (pendingOf newId now d evs),
          .distributeE d (sumAmount evs)]) ++
          [.updateStatusE (newId d) .completed (dist d (sumAmount evs)).txHash,
           .markSettledE (evs.map (·.id)) (newId d)] } := by
  simp only [processGroup, storeCreate, pendingOf]
  rw [if_neg hmin, if_pos hsucc]

theorem processGroup_failure (minP : ℚ) (dist : String → ℚ → DistributeResult)
    (newId : String → String) (now : String) (st : BatchState) (d : String)
    (evs : List SUsageEvent) (hmin : ¬ (sumAmount evs < minP))
    (hfail : ((dist d (sumAmount evs)).success
      && txTruthy (dist d (sumAmount evs)).txHash) = false) :
    processGroup minP dist newId now st (d, evs) =
      { settlements := updateStatus (st.settlements ++ [pendingOf newId now d evs])
          (newId d) .failed none
      , usage := st.usage
      , processed := st.processed
      , settledAmount := st.settledAmount
      , errors := st.errors + 1
      , trace := (st.trace ++ [.createE (pendingOf newId now d evs),
          .distributeE d (sumAmount evs)]) ++
          [.updateStatusE (newId d) .failed none] } := by
  simp only [processGroup, storeCreate, pendingOf]
  rw [if_neg hmin, if_neg (by simpa using hfail)]

theorem processGroup_trace_facts (minP : ℚ) (dist : String → ℚ → DistributeResult)
    (newId : String → String) (now : String) (st : BatchState)
    (en : String × List SUsageEvent) :
    ∃ tr, (processGroup minP dist newId now st en).trace = st.trace ++ tr ∧
      (∀ d a, BatchOp.distributeE d a ∈ tr →
        d = en.1 ∧ ¬ (sumAmount en.2 < minP)) := by
  by_cases hmin : sumAmount en.2 < minP
  · exact ⟨[], by rw [processGroup_skip _ _ _ _ _ _ hmin]; simp, by simp⟩
  · rcases en with ⟨d, evs⟩
    by_cases hs : ((dist d (sumAmount evs)).success
        && txTruthy (dist d (sumAmount evs)).txHash) = true
    · refine ⟨[.createE (pendingOf newId now d evs), .distributeE d (sumAmount evs),
        .updateStatusE (newId d) .completed (dist d (sumAmount evs)).txHash,
        .markSettledE (evs.map (·.id)) (newId d)], ?_, ?_⟩
      · rw [processGroup_success _ _ _ _ _ _ _ hmin hs]
        simp
      · intro d' a hmem
        simp only [List.mem_cons, List.mem_singleton] at hmem
        rcases hmem with h | h | h | h | h <;> simp_all
    · refine ⟨[.createE (pendingOf newId now d evs), .distributeE d (sumAmount evs),
        .updateStatusE (newId d) .failed none], ?_, ?_⟩
      · rw [processGroup_failure _ _ _ _ _ _ _ hmin (by simpa using hs)]
        simp
      · intro d' a hmem
        simp only [List.mem_cons, List.mem_singleton] at hmem
        rcases hmem with h | h | h | h <;> simp_all

theorem foldl_distribute_source (minP : ℚ) (dist : String → ℚ → DistributeResult)
    (newId : String → String) (now : String) :
    ∀ (entries : List (String × List SUsageEvent)) (st : BatchState)
      (d : String) (a : ℚ),
      BatchOp.distributeE d a ∈
        (entries.foldl (processGroup minP dist newId now) st).trace →
      BatchOp.distributeE d a ∈ st.trace ∨
        ∃ evs, (d, evs) ∈ entries ∧ ¬ (sumAmount evs < minP)
  | [], _, _, _, h => Or.inl h
  | en :: rest, st, d, a, h => by
      rcases foldl_distribute_source minP dist newId now rest
        (processGroup minP dist newId now st en) d a h with hin | ⟨evs, hmem, hge⟩
      · rcases processGroup_trace_facts minP dist newId now st en
          with ⟨tr, htr, hdist⟩
        rw [htr] at hin
        rcases List.mem_append.mp hin with h' | h'
        · exact Or.inl h'
        · rcases hdist d a h' with ⟨hd, hge⟩
          refine Or.inr ⟨en.2, ?_, hge⟩
          rw [hd, Prod.mk.eta]
          exact List.mem_cons_self _ _
      · exact Or.inr ⟨evs, List.mem_cons_of_mem _ hmem, hge⟩

theorem processGroup_usage_cases (minP : ℚ) (dist : String → ℚ → DistributeResult)
    (newId : String → String) (now : String) (st : BatchState)
    (en : String × List SUsageEvent) :
    (processGroup minP dist newId now st en).usage = st.usage ∨
    (processGroup minP dist newId now st en).usage =
      markAsSettled st.usage (en.2.map (·.id)) (newId en.1) := by
  by_cases hmin : sumAmount en.2 < minP
  · rw [processGroup_skip _ _ _ _ _ _ hmin]
    exact Or.inl rfl
  · rcases en with ⟨d, evs⟩
    by_cases hs : ((dist d (sumAmount evs)).success
        && txTruthy (dist d (sumAmount evs)).txHash) = true
    · rw [processGroup_success _ _ _ _ _ _ _ hmin hs]
      exact Or.inr rfl
    · rw [processGroup_failure _ _ _ _ _ _ _ hmin (by simpa using hs)]
      exact Or.inl rfl

theorem foldl_usage_mem (minP : ℚ) (dist : String → ℚ → DistributeResult)
    (newId : String → String) (now : String) :
    ∀ (entries : List (String × List SUsageEvent)) (st : BatchState)
      (e : SUsageEvent), e ∈ st.usage →
      (∀ en ∈ entries, e.id ∉ en.2.map (·.id)) →
      e ∈ (entries.foldl (processGroup minP dist newId now) st).usage
  | [], _, _, he, _ => he
  | en :: rest, st, e, he, hids => by
      refine foldl_usage_mem minP dist newId now rest _ e ?_
        (fun en' hen' => hids en' (List.mem_cons_of_mem _ hen'))
      rcases processGroup_usage_cases minP dist newId now st en with hu | hu
      · rw [hu]; exact he
      · rw [hu]
        exact mark_mem_of_not_mem_ids _ _ _ _ he (hids en (List.mem_cons_self _ _))

theorem processGroup_devIds_cases (minP : ℚ) (dist : String → ℚ → DistributeResult)
    (newId : String → String) (now : String) (st : BatchState)
    (en : String × List SUsageEvent) :
    (processGroup minP dist newId now st en).settlements.map (·.developerId) =
      st.settlements.map (·.developerId) ∨
    (processGroup minP dist newId now st en).settlements.map (·.developerId) =
      st.settlements.map (·.developerId) ++ [en.1] := by
  by_cases hmin : sumAmount en.2 < minP
  · rw [processGroup_skip _ _ _ _ _ _ hmin]
    exact Or.inl rfl
  · rcases en with ⟨d, evs⟩
    by_cases hs : ((dist d (sumAmount evs)).success
        && txTruthy (dist d (sumAmount evs)).txHash) = true
    · rw [processGroup_success _ _ _ _ _ _ _ hmin hs]
      refine Or.inr ?_
      show (updateStatus _ _ _ _).map (·.developerId) = _
      rw [updateStatus_devIds]
      simp [pendingOf]
    · rw [processGroup_failure _ _ _ _ _ _ _ hmin (by simpa using hs)]
      refine Or.inr ?_
      show (updateStatus _ _ _ _).map (·.developerId) = _
      rw [updateStatus_devIds]
      simp [pendingOf]

theorem foldl_dev_count (minP : ℚ) (dist : String → ℚ → DistributeResult)
    (newId : String → String) (now : String) (d : String) :
    ∀ (entries : List (String × List SUsageEvent)) (st : BatchState),
      (∀ en ∈ entries, en.1 ≠ d) →
      ((entries.foldl (processGroup minP dist newId now) st).settlements.map
          (·.developerId)).count d =
        (st.settlements.map (·.developerId)).count d
  | [], _, _ => rfl
  | en :: rest, st, hne => by
      rw [List.foldl_cons,
        foldl_dev_count minP dist newId now d rest _
          (fun en' hen' => hne en' (List.mem_cons_of_mem _ hen'))]
      rcases processGroup_devIds_cases minP dist newId now st en with hm | hm
      · rw [hm]
      · rw [hm, List.count_append]
        have hz : [en.1].count d = 0 := by
          simp [List.count_singleton]
          exact fun hh => (hne en (List.mem_cons_self _ _)) hh
        rw [hz, Nat.add_zero]

theorem filter_dev_length (l : List Settlement) (d : String) :
    (l.filter (fun s => s.developerId = d)).length =
      (l.map (·.developerId)).count d := by
  induction l with
  | nil => rfl
  | cons s rest ih =>
      rw [List.filter_cons, List.map_cons, List.count_cons]
      by_cases hd : s.developerId = d
      · rw [if_pos (by simpa using hd)]
        simp only [List.length_cons, ih, hd]
        simp
      · rw [if_neg (by simpa using hd)]
        rw [ih]
        simp [hd]

theorem processGroup_filter_sid (minP : ℚ) (dist : String → ℚ → DistributeResult)
    (newId : String → String) (now : String) (st : BatchState)
    (en : String × List SUsageEvent) (sid : String) (hne : newId en.1 ≠ sid) :
    (processGroup minP dist newId now st en).settlements.filter
        (fun s => s.id = sid) =
      st.settlements.filter (fun s => s.id = sid) := by
  by_cases hmin : sumAmount en.2 < minP
  · rw [processGroup_skip _ _ _ _ _ _ hmin]
  · rcases en with ⟨d, evs⟩
    by_cases hs : ((dist d (sumAmount evs)).success
        && txTruthy (dist d (sumAmount evs)).txHash) = true
    · rw [processGroup_success _ _ _ _ _ _ _ hmin hs]
      show (updateStatus _ _ _ _).filter _ = _
      rw [updateStatus_filter_ne _ _ _ _ _ hne, List.filter_append]
      have : ([pendingOf newId now d evs].filter (fun s => s.id = sid)) = [] := by
        simp only [List.filter_cons, List.filter_nil, pendingOf]
        rw [if_neg (by simpa using hne)]
      rw [this, List.append_nil]
    · rw [processGroup_failure _ _ _ _ _ _ _ hmin (by simpa using hs)]
      show (updateStatus _ _ _ _).filter _ = _
      rw [updateStatus_filter_ne _ _ _ _ _ hne, List.filter_append]
      have : ([pendingOf newId now d evs].filter (fun s => s.id = sid)) = [] := by
        simp only [List.filter_cons, List.filter_nil, pendingOf]
        rw [if_neg (by simpa using hne)]
      rw [this, List.append_nil]

theorem foldl_filter_sid (minP : ℚ) (dist : String → ℚ → DistributeResult)
    (newId : String → String) (now : String) (sid : String) :
    ∀ (entries : List (String × List SUsageEvent)) (st : BatchState),
      (∀ en ∈ entries, newId en.1 ≠ sid) →
      ((entries.foldl (processGroup minP dist newId now) st).settlements.filter
          (fun s => s.id = sid)) =
        st.settlements.filter (fun s => s.id = sid)
  | [], _, _ => rfl
  | en :: rest, st, hne => by
      rw [List.foldl_cons,
        foldl_filter_sid minP dist newId now sid rest _
          (fun en' hen' => hne en' (List.mem_cons_of_mem _ hen')),
        processGroup_filter_sid minP dist newId now st en sid
          (hne en (List.mem_cons_self _ _))]

theorem foldl_trace_extends (minP : ℚ) (dist : String → ℚ → DistributeResult)
    (newId : String → String) (now : String) :
    ∀ (entries : List (String × List SUsageEvent)) (st : BatchState),
      ∃ tr, (entries.foldl (processGroup minP dist newId now) st).trace =
        st.trace ++ tr
  | [], st => ⟨[], by simp⟩
  | en :: rest, st => by
      rcases processGroup_trace_facts minP dist newId now st en with ⟨tr0, htr0, _⟩
      rcases foldl_trace_extends minP dist newId now rest
        (processGroup minP dist newId now st en) with ⟨tr, htr⟩
      exact ⟨tr0 ++ tr, by rw [List.foldl_cons] at *; rw [htr, htr0, List.append_assoc]⟩

theorem filter_id_nil (l : List Settlement) (x : String)
    (h : x ∉ l.map (·.id)) : l.filter (fun s => s.id = x) = [] := by
  induction l with
  | nil => rfl
  | cons s rest ih =>
      simp only [List.map_cons, List.mem_cons] at h
      push_neg at h
      rw [List.filter_cons, if_neg (by simpa using (fun hh => h.1 hh.symm))]
      exact ih h.2

theorem eq_of_mem_id_nodup (l : List SUsageEvent)
    (hnd : (l.map (·.id)).Nodup) (e e' : SUsageEvent)
    (he : e ∈ l) (he' : e' ∈ l) (heq : e.id = e'.id) : e = e' := by
  induction l with
  | nil => simp at he
  | cons a rest ih =>
      have hndr : (rest.map (·.id)).Nodup := (List.nodup_cons.mp hnd).2
      have han : a.id ∉ rest.map (·.id) := (List.nodup_cons.mp hnd).1
      rcases List.mem_cons.mp he with rfl | hm
      · rcases List.mem_cons.mp he' with rfl | hm'
        · rfl
        · exact absurd (heq ▸ List.mem_map.mpr ⟨e', hm', rfl⟩) han
      · rcases List.mem_cons.mp he' with rfl | hm'
        · exfalso
          apply han
          rw [← heq]
          exact List.mem_map.mpr ⟨e, hm, rfl⟩
        · exact ih hndr hm hm'

theorem runBatch_eq (options : RevenueSettlementOptions)
    (registry : String → Option ApiRegistryEntry)
    (distribute : String → ℚ → DistributeResult) (newId : String → String)
    (now : String) (usage : List SUsageEvent) (settlements : List Settlement)
    (h : getUnsettledEvents usage ≠ []) :
    runBatch options registry distribute newId now usage settlements =
      (groupByDeveloper (options.maxEventsPerBatch.getD 1000) registry
        (getUnsettledEvents usage)).foldl
        (processGroup (options.minPayoutUsdc.getD 5) distribute newId now)
        { settlements := settlements, usage := usage, processed := 0
        , settledAmount := 0, errors := 0, trace := [] } := by
  rw [runBatch]
  rw [if_neg (by simpa [List.length_eq_zero] using h)]

theorem mem_split_nodup_keys (m : List (String × List SUsageEvent))
    (d : String) (evs : List SUsageEvent)
    (hnd : (m.map Prod.fst).Nodup) (hmem : (d, evs) ∈ m) :
    ∃ pre post, m = pre ++ (d, evs) :: post ∧
      (∀ en ∈ pre, en.1 ≠ d) ∧ (∀ en ∈ post, en.1 ≠ d) := by
  rcases List.append_of_mem hmem with ⟨pre, post, rfl⟩
  refine ⟨pre, post, rfl, ?_, ?_⟩
  · rw [List.map_append, List.map_cons] at hnd
    rcases List.nodup_append.mp hnd with ⟨_, _, hAB⟩
    intro en hen hd
    exact hAB (List.mem_map.mpr ⟨en, hen, hd⟩) (List.mem_cons_self _ _)
  · rw [List.map_append, List.map_cons] at hnd
    rcases List.nodup_append.mp hnd with ⟨_, hB, _⟩
    have hdn : (d : String) ∉ post.map Prod.fst := (List.nodup_cons.mp hB).1
    intro en hen hd
    exact hdn (List.mem_map.mpr ⟨en, hen, hd⟩)

theorem unsettled_facts (usage : List SUsageEvent) (e : SUsageEvent)
    (h : e ∈ getUnsettledEvents usage) : e ∈ usage ∧ e.settlementId = none := by
  rw [getUnsettledEvents] at h
  have hf := List.mem_filter.mp h
  exact ⟨hf.1, by simpa using hf.2⟩

theorem unsettled_ids_nodup (usage : List SUsageEvent)
    (h : (usage.map (·.id)).Nodup) :
    ((getUnsettledEvents usage).map (·.id)).Nodup := by
  have hsub : List.Sublist (getUnsettledEvents usage) usage :=
    List.filter_sublist usage
  exact (hsub.map (·.id)).nodup h

theorem group_ids_disjoint (maxE : Nat) (reg : String → Option ApiRegistryEntry)
    (unsettled : List SUsageEvent) (hnd : (unsettled.map (·.id)).Nodup)
    (d : String) (evs : List SUsageEvent) (d' : String) (evs' : List SUsageEvent)
    (hmem : (d, evs) ∈ groupByDeveloper maxE reg unsettled)
    (hmem' : (d', evs') ∈ groupByDeveloper maxE reg unsettled) (hne : d ≠ d')
    (e : SUsageEvent) (he : e ∈ evs) : e.id ∉ evs'.map (·.id) := by
  intro hid
  rcases List.mem_map.mp hid with ⟨e', he', heq⟩
  have h1 := groupByDeveloper_sound maxE reg unsettled _ hmem e he
  have h2 := groupByDeveloper_sound maxE reg unsettled _ hmem' e' he'
  have hee : e = e' := eq_of_mem_id_nodup unsettled hnd e e' h1.1 h2.1 heq.symm
  exact hne (belongsTo_functional reg d d' e h1.2 (by rw [hee]; exact h2.2))

/-- C7: an owner whose (capped) group of unsettled positive-charge events sums
below the minimum payout threshold is skipped by the batch run: no settlement
record is created for that owner, the settlement network is never invoked for
that owner, and every event of the group is left in the store unsettled. -/
theorem C7_below_threshold_skipped
    (options : RevenueSettlementOptions)
    (registry : String → Option ApiRegistryEntry)
    (distribute : String → ℚ → DistributeResult) (newId : String → String)
    (now : String) (usage : List SUsageEvent) (settlements : List Settlement)
    (d : String) (evs : List SUsageEvent)
    (hnd : (usage.map (·.id)).Nodup)
    (hmem : (d, evs) ∈ groupByDeveloper (options.maxEventsPerBatch.getD 1000)
      registry (getUnsettledEvents usage))
    (hbelow : sumAmount evs < options.minPayoutUsdc.getD 5) :
    ((runBatch options registry distribute newId now usage
        settlements).settlements.filter (fun s => s.developerId = d)).length =
      (settlements.filter (fun s => s.developerId = d)).length ∧
    (∀ a, BatchOp.distributeE d a ∉
      (runBatch options registry distribute newId now usage settlements).trace) ∧
    (∀ e ∈ evs,
      e ∈ (runBatch options registry distribute newId now usage settlements).usage ∧
      e.settlementId = none) := by
  have hun_ne : getUnsettledEvents usage ≠ [] := by
    intro h0
    rw [h0] at hmem
    simp [groupByDeveloper] at hmem
  have hknd := groupByDeveloper_keys_nodup (options.maxEventsPerBatch.getD 1000)
    registry (getUnsettledEvents usage)
  rcases mem_split_nodup_keys _ d evs hknd hmem with ⟨pre, post, hsplit, hpre, hpost⟩
  have hndu := unsettled_ids_nodup usage hnd
  have hidpre : ∀ en ∈ pre, ∀ e ∈ evs, e.id ∉ en.2.map (·.id) := by
    intro en hen e he
    have henG : en ∈ groupByDeveloper (options.maxEventsPerBatch.getD 1000)
        registry (getUnsettledEvents usage) := by
      rw [hsplit]
      exact List.mem_append.mpr (Or.inl hen)
    exact group_ids_disjoint _ registry _ hndu d evs en.1 en.2 hmem henG
      (fun hh => hpre en hen hh.symm) e he
  have hidpost : ∀ en ∈ post, ∀ e ∈ evs, e.id ∉ en.2.map (·.id) := by
    intro en hen e he
    have henG : en ∈ groupByDeveloper (options.maxEventsPerBatch.getD 1000)
        registry (getUnsettledEvents usage) := by
      rw [hsplit]
      exact List.mem_append.mpr (Or.inr (List.mem_cons_of_mem _ hen))
    exact group_ids_disjoint _ registry _ hndu d evs en.1 en.2 hmem henG
      (fun hh => hpost en hen hh.symm) e he
  refine ⟨?_, ?_, ?_⟩
  · rw [runBatch_eq _ _ _ _ _ _ _ hun_ne, hsplit, List.foldl_append,
      List.foldl_cons,
      processGroup_skip (options.minPayoutUsdc.getD 5) distribute newId now _
        (d, evs) hbelow,
      filter_dev_length, filter_dev_length,
      foldl_dev_count _ distribute newId now d post _ hpost,
      foldl_dev_count _ distribute newId now d pre _ hpre]
  · intro a hmem'
    rw [runBatch_eq _ _ _ _ _ _ _ hun_ne] at hmem'
    rcases foldl_distribute_source _ distribute newId now _ _ d a hmem'
      with hin | ⟨evs', hmemG, hge⟩
    · simp at hin
    · have h1 := mapLookup_of_mem_nodup _ _ _ hknd hmem
      have h2 := mapLookup_of_mem_nodup _ _ _ hknd hmemG
      rw [h1] at h2
      have : evs = evs' := by injection h2
      rw [← this] at hge
      exact hge hbelow
  · intro e he
    have hsound := groupByDeveloper_sound _ registry _ _ hmem e he
    have hfacts := unsettled_facts usage e hsound.1
    refine ⟨?_, hfacts.2⟩
    rw [runBatch_eq _ _ _ _ _ _ _ hun_ne, hsplit, List.foldl_append,
      List.foldl_cons,
      processGroup_skip (options.minPayoutUsdc.getD 5) distribute newId now _
        (d, evs) hbelow]
    refine foldl_usage_mem _ distribute newId now post _ e ?_
      (fun en hen => hidpost en hen e he)
    exact foldl_usage_mem _ distribute newId now pre _ e hfacts.1
      (fun en hen => hidpre en hen e he)

/-! Concrete settlement fixtures. -/

/-- A registry resolving only `api_1` (owned by `dev_1`). -/
def sReg : String → Option ApiRegistryEntry :=
  fun s => if s = "api_1" then some cEntry else none

/-- A settlement network client that always succeeds. -/
def sDistOk : String → ℚ → DistributeResult := fun _ _ => ⟨true, some "0xmocktx"⟩

/-- A settlement network client that always fails. -/
def sDistFail : String → ℚ → DistributeResult := fun _ _ => ⟨false, none⟩

/-- A deterministic fresh-settlement-id supply. -/
def sNid : String → String := fun d => String.append "stl_" d

/-- Witness for C7 at the spec's scenario: `dev_1` holds unsettled charges
totaling 4.0 against a 5.0 threshold, so the batch settles nothing. -/
theorem C7_witness :
    ((runBatch ⟨some 5, some 10⟩ sReg sDistOk sNid "t"
        [⟨"e1", "api_1", 3, none⟩, ⟨"e2", "api_1", 1, none⟩] []).settlements.filter
        (fun s => s.developerId = "dev_1")).length =
      (([] : List Settlement).filter (fun s => s.developerId = "dev_1")).length ∧
    (∀ a, BatchOp.distributeE "dev_1" a ∉
      (runBatch ⟨some 5, some 10⟩ sReg sDistOk sNid "t"
        [⟨"e1", "api_1", 3, none⟩, ⟨"e2", "api_1", 1, none⟩] []).trace) ∧
    (∀ e ∈ [(⟨"e1", "api_1", 3, none⟩ : SUsageEvent), ⟨"e2", "api_1", 1, none⟩],
      e ∈ (runBatch ⟨some 5, some 10⟩ sReg sDistOk sNid "t"
        [⟨"e1", "api_1", 3, none⟩, ⟨"e2", "api_1", 1, none⟩] []).usage ∧
      e.settlementId = none) :=
  C7_below_threshold_skipped ⟨some 5, some 10⟩ sReg sDistOk sNid "t"
    [⟨"e1", "api_1", 3, none⟩, ⟨"e2", "api_1", 1, none⟩] [] "dev_1"
    [⟨"e1", "api_1", 3, none⟩, ⟨"e2", "api_1", 1, none⟩]
    (by decide) (by decide) (by norm_num [sumAmount])

/-- C9: for every owner group that meets the payout threshold, a pending
settlement is created strictly before the distribute call appears in the
batch's operation trace; if distribute fails the settlement record ends the
run marked failed and every event of the group is still stored unsettled, and
if distribute succeeds with a transaction hash the record ends the run marked
completed carrying that hash and every event of the group is stored settled
with that one settlement id. -/
theorem C9_settlement_lifecycle
    (options : RevenueSettlementOptions)
    (registry : String → Option ApiRegistryEntry)
    (distribute : String → ℚ → DistributeResult) (newId : String → String)
    (now : String) (usage : List SUsageEvent) (settlements : List Settlement)
    (d : String) (evs : List SUsageEvent)
    (hnd : (usage.map (·.id)).Nodup)
    (hmem : (d, evs) ∈ groupByDeveloper (options.maxEventsPerBatch.getD 1000)
      registry (getUnsettledEvents usage))
    (hmin : ¬ (sumAmount evs < options.minPayoutUsdc.getD 5))
    (hinj : ∀ d1 d2, newId d1 = newId d2 → d1 = d2)
    (hfresh : ∀ d', newId d' ∉ settlements.map (·.id)) :
    (∃ tr1 tr2,
      (runBatch options registry distribute newId now usage settlements).trace =
        tr1 ++ [BatchOp.createE (pendingOf newId now d evs),
                BatchOp.distributeE d (sumAmount evs)] ++ tr2 ∧
      (pendingOf newId now d evs).status = SettlementStatus.pending) ∧
    ((distribute d (sumAmount evs)).success = false →
      (runBatch options registry distribute newId now usage
          settlements).settlements.filter (fun s => s.id = newId d) =
        [{ pendingOf newId now d evs with status := SettlementStatus.failed }] ∧
      (∀ e ∈ evs,
        e ∈ (runBatch options registry distribute newId now usage
          settlements).usage ∧ e.settlementId = none)) ∧
    (∀ h, (distribute d (sumAmount evs)).success = true →
      (distribute d (sumAmount evs)).txHash = some h → ¬ (h = "") →
      (runBatch options registry distribute newId now usage
          settlements).settlements.filter (fun s => s.id = newId d) =
        [{ pendingOf newId now d evs with
            status := SettlementStatus.completed,
            tx_hash := some h }] ∧
      (∀ e ∈ evs, { e with settlementId := some (newId d) } ∈
        (runBatch options registry distribute newId now usage
          settlements).usage)) := by
  have hun_ne : getUnsettledEvents usage ≠ [] := by
    intro h0
    rw [h0] at hmem
    simp [groupByDeveloper] at hmem
  have hknd := groupByDeveloper_keys_nodup (options.maxEventsPerBatch.getD 1000)
    registry (getUnsettledEvents usage)
  rcases mem_split_nodup_keys _ d evs hknd hmem with ⟨pre, post, hsplit, hpre, hpost⟩
  have hndu := unsettled_ids_nodup usage hnd
  have hidpre : ∀ en ∈ pre, ∀ e ∈ evs, e.id ∉ en.2.map (·.id) := by
    intro en hen e he
    have henG : en ∈ groupByDeveloper (options.maxEventsPerBatch.getD 1000)
        registry (getUnsettledEvents usage) := by
      rw [hsplit]
      exact List.mem_append.mpr (Or.inl hen)
    exact group_ids_disjoint _ registry _ hndu d evs en.1 en.2 hmem henG
      (fun hh => hpre en hen hh.symm) e he
  have hidpost : ∀ en ∈ post, ∀ e ∈ evs, (e : SUsageEvent).id ∉ en.2.map (·.id) := by
    intro en hen e he
    have henG : en ∈ groupByDeveloper (options.maxEventsPerBatch.getD 1000)
        registry (getUnsettledEvents usage) := by
      rw [hsplit]
      exact List.mem_append.mpr (Or.inr (List.mem_cons_of_mem _ hen))
    exact group_ids_disjoint _ registry _ hndu d evs en.1 en.2 hmem henG
      (fun hh => hpost en hen hh.symm) e he
  have hpreids : ∀ en ∈ pre, newId en.1 ≠ newId d :=
    fun en hen hh => hpre en hen (hinj _ _ hh)
  have hpostids : ∀ en ∈ post, newId en.1 ≠ newId d :=
    fun en hen hh => hpost en hen (hinj _ _ hh)
  rw [runBatch_eq _ _ _ _ _ _ _ hun_ne, hsplit, List.foldl_append, List.foldl_cons]
  set init : BatchState :=
    { settlements := settlements, usage := usage, processed := 0
    , settledAmount := 0, errors := 0, trace := [] } with hinit
  set stMid := pre.foldl
    (processGroup (options.minPayoutUsdc.getD 5) distribute newId now) init
    with hstMid
  have hMidFilter : (stMid.settlements.filter (fun s => s.id = newId d)) = [] := by
    rw [hstMid, foldl_filter_sid _ distribute newId now _ pre _ hpreids, hinit]
    exact filter_id_nil settlements (newId d) (hfresh d)
  have hMidUsage : ∀ e ∈ evs, e ∈ stMid.usage := by
    intro e he
    have hsound := groupByDeveloper_sound _ registry _ _ hmem e he
    have hfacts := unsettled_facts usage e hsound.1
    rw [hstMid]
    exact foldl_usage_mem _ distribute newId now pre _ e (by rw [hinit]; exact hfacts.1)
      (fun en hen => hidpre en hen e he)
  have hEvFacts : ∀ e ∈ evs, e ∈ usage ∧ e.settlementId = none := by
    intro e he
    exact unsettled_facts usage e (groupByDeveloper_sound _ registry _ _ hmem e he).1
  refine ⟨?_, ?_, ?_⟩
  · -- pending created before the distribute call, in every branch
    by_cases hc : ((distribute d (sumAmount evs)).success
        && txTruthy (distribute d (sumAmount evs)).txHash) = true
    · rw [processGroup_success _ _ _ _ _ _ _ hmin hc]
      rcases foldl_trace_extends (options.minPayoutUsdc.getD 5) distribute newId now
        post _ with ⟨trPost, htrPost⟩
      rw [htrPost]
      exact ⟨stMid.trace,
        [BatchOp.updateStatusE (newId d) .completed
          (distribute d (sumAmount evs)).txHash,
         BatchOp.markSettledE (evs.map (·.id)) (newId d)] ++ trPost,
        by simp [List.append_assoc], rfl⟩
    · rw [processGroup_failure _ _ _ _ _ _ _ hmin (by simpa using hc)]
      rcases foldl_trace_extends (options.minPayoutUsdc.getD 5) distribute newId now
        post _ with ⟨trPost, htrPost⟩
      rw [htrPost]
      exact ⟨stMid.trace,
        [BatchOp.updateStatusE (newId d) .failed none] ++ trPost,
        by simp [List.append_assoc], rfl⟩
  · -- failure branch
    intro hfail
    have hc : ((distribute d (sumAmount evs)).success
        && txTruthy (distribute d (sumAmount evs)).txHash) = false := by
      simp [hfail]
    rw [processGroup_failure _ _ _ _ _ _ _ hmin (by simpa using hc)]
    constructor
    · rw [foldl_filter_sid _ distribute newId now _ post _ hpostids]
      show (updateStatus _ _ _ _).filter _ = _
      have hbase : ((stMid.settlements ++
          [pendingOf newId now d evs]).filter (fun s => s.id = newId d)) =
          [pendingOf newId now d evs] := by
        rw [List.filter_append, hMidFilter]
        simp [pendingOf]
      rw [updateStatus_filter_self _ _ _ _ _ hbase]
    · intro e he
      refine ⟨?_, (hEvFacts e he).2⟩
      refine foldl_usage_mem _ distribute newId now post _ e ?_
        (fun en hen => hidpost en hen e he)
      exact hMidUsage e he
  · -- success branch
    intro h hsucc hhash hne
    have hc : ((distribute d (sumAmount evs)).success
        && txTruthy (distribute d (sumAmount evs)).txHash) = true := by
      simp [hsucc, hhash, txTruthy, hne]
    rw [processGroup_success _ _ _ _ _ _ _ hmin hc]
    constructor
    · rw [foldl_filter_sid _ distribute newId now _ post _ hpostids]
      show (updateStatus _ _ _ _).filter _ = _
      have hbase : ((stMid.settlements ++
          [pendingOf newId now d evs]).filter (fun s => s.id = newId d)) =
          [pendingOf newId now d evs] := by
        rw [List.filter_append, hMidFilter]
        simp [pendingOf]
      rw [updateStatus_filter_self _ _ _ _ _ hbase, hhash]
    · intro e he
      refine foldl_usage_mem _ distribute newId now post _ _ ?_
        (fun en hen => hidpost en hen e he)
      exact mark_mem_of_mem_ids _ _ _ e (hMidUsage e he)
        (List.mem_map.mpr ⟨e, he, rfl⟩)

/-- Witness for C9 at the spec's scenario: `dev_1` reaches 6.0 accumulated
against a 5.0 threshold with an always-succeeding client. -/
theorem C9_witness :
    (∃ tr1 tr2,
      (runBatch ⟨some 5, some 10⟩ sReg sDistOk (fun x : String => x) "t"
        [⟨"e1", "api_1", 4, none⟩, ⟨"e2", "api_1", 2, none⟩] []).trace =
        tr1 ++ [BatchOp.createE (pendingOf (fun x : String => x) "t" "dev_1"
                  [⟨"e1", "api_1", 4, none⟩, ⟨"e2", "api_1", 2, none⟩]),
                BatchOp.distributeE "dev_1"
                  (sumAmount [⟨"e1", "api_1", 4, none⟩, ⟨"e2", "api_1", 2, none⟩])]
          ++ tr2 ∧
      (pendingOf (fun x : String => x) "t" "dev_1"
        [⟨"e1", "api_1", 4, none⟩, ⟨"e2", "api_1", 2, none⟩]).status =
        SettlementStatus.pending) ∧
    ((sDistOk "dev_1" (sumAmount [⟨"e1", "api_1", 4, none⟩,
        ⟨"e2", "api_1", 2, none⟩])).success = false →
      (runBatch ⟨some 5, some 10⟩ sReg sDistOk (fun x : String => x) "t"
        [⟨"e1", "api_1", 4, none⟩, ⟨"e2", "api_1", 2, none⟩] []).settlements.filter
        (fun s => s.id = (fun x : String => x) "dev_1") =
        [{ pendingOf (fun x : String => x) "t" "dev_1"
            [⟨"e1", "api_1", 4, none⟩, ⟨"e2", "api_1", 2, none⟩] with
            status := SettlementStatus.failed }] ∧
      (∀ e ∈ [(⟨"e1", "api_1", 4, none⟩ : SUsageEvent), ⟨"e2", "api_1", 2, none⟩],
        e ∈ (runBatch ⟨some 5, some 10⟩ sReg sDistOk (fun x : String => x) "t"
          [⟨"e1", "api_1", 4, none⟩, ⟨"e2", "api_1", 2, none⟩] []).usage ∧
        e.settlementId = none)) ∧
    (∀ h, (sDistOk "dev_1" (sumAmount [⟨"e1", "api_1", 4, none⟩,
        ⟨"e2", "api_1", 2, none⟩])).success = true →
      (sDistOk "dev_1" (sumAmount [⟨"e1", "api_1", 4, none⟩,
        ⟨"e2", "api_1", 2, none⟩])).txHash = some h → ¬ (h = "") →
      (runBatch ⟨some 5, some 10⟩ sReg sDistOk (fun x : String => x) "t"
        [⟨"e1", "api_1", 4, none⟩, ⟨"e2", "api_1", 2, none⟩] []).settlements.filter
        (fun s => s.id = (fun x : String => x) "dev_1") =
        [{ pendingOf (fun x : String => x) "t" "dev_1"
            [⟨"e1", "api_1", 4, none⟩, ⟨"e2", "api_1", 2, none⟩] with
            status := SettlementStatus.completed,
            tx_hash := some h }] ∧
      (∀ e ∈ [(⟨"e1", "api_1", 4, none⟩ : SUsageEvent), ⟨"e2", "api_1", 2, none⟩],
        { e with settlementId := some ((fun x : String => x) "dev_1") } ∈
          (runBatch ⟨some 5, some 10⟩ sReg sDistOk (fun x : String => x) "t"
            [⟨"e1", "api_1", 4, none⟩, ⟨"e2", "api_1", 2, none⟩] []).usage)) :=
  C9_settlement_lifecycle ⟨some 5, some 10⟩ sReg sDistOk (fun x : String => x) "t"
    [⟨"e1", "api_1", 4, none⟩, ⟨"e2", "api_1", 2, none⟩] [] "dev_1"
    [⟨"e1", "api_1", 4, none⟩, ⟨"e2", "api_1", 2, none⟩]
    (by decide) (by decide) (by norm_num [sumAmount]) (fun _ _ h => h) (by simp)

/-- C8: when an owner has more unsettled positive-charge events than the
per-batch cap, the group formed for that owner is exactly the first cap-many
such events in store order; when that capped group settles successfully,
exactly those first cap-many events end the run settled with the group's
settlement id and every event beyond the cap ends the run still unsettled. -/
theorem C8_per_batch_cap
    (options : RevenueSettlementOptions)
    (registry : String → Option ApiRegistryEntry)
    (distribute : String → ℚ → DistributeResult) (newId : String → String)
    (now : String) (usage : List SUsageEvent) (settlements : List Settlement)
    (d : String) (h : String)
    (hnd : (usage.map (·.id)).Nodup)
    (hpos : 0 < options.maxEventsPerBatch.getD 1000)
    (hover : options.maxEventsPerBatch.getD 1000 <
      ((getUnsettledEvents usage).filter (belongsTo registry d)).length)
    (hmin : ¬ (sumAmount (((getUnsettledEvents usage).filter
        (belongsTo registry d)).take (options.maxEventsPerBatch.getD 1000)) <
      options.minPayoutUsdc.getD 5))
    (hsucc : (distribute d (sumAmount (((getUnsettledEvents usage).filter
        (belongsTo registry d)).take
        (options.maxEventsPerBatch.getD 1000)))).success = true)
    (hhash : (distribute d (sumAmount (((getUnsettledEvents usage).filter
        (belongsTo registry d)).take
        (options.maxEventsPerBatch.getD 1000)))).txHash = some h)
    (hne : ¬ (h = "")) :
    mapLookup (groupByDeveloper (options.maxEventsPerBatch.getD 1000) registry
        (getUnsettledEvents usage)) d =
      some (((getUnsettledEvents usage).filter (belongsTo registry d)).take
        (options.maxEventsPerBatch.getD 1000)) ∧
    (∀ e ∈ ((getUnsettledEvents usage).filter (belongsTo registry d)).take
        (options.maxEventsPerBatch.getD 1000),
      { e with settlementId := some (newId d) } ∈
        (runBatch options registry distribute newId now usage settlements).usage) ∧
    (∀ e ∈ ((getUnsettledEvents usage).filter (belongsTo registry d)).drop
        (options.maxEventsPerBatch.getD 1000),
      e ∈ (runBatch options registry distribute newId now usage settlements).usage ∧
      e.settlementId = none) := by
  have hposne : (getUnsettledEvents usage).filter (belongsTo registry d) ≠ [] := by
    intro h0
    rw [h0] at hover
    simp at hover
  have hun_ne : getUnsettledEvents usage ≠ [] := by
    intro h0
    rw [h0] at hposne
    simp at hposne
  have hlk := groupByDeveloper_lookup (options.maxEventsPerBatch.getD 1000) registry
    (getUnsettledEvents usage) d hpos hposne
  have hmem := mem_of_mapLookup _ _ _ hlk
  have hndu := unsettled_ids_nodup usage hnd
  have hposnd : ((((getUnsettledEvents usage).filter
      (belongsTo registry d))).map (·.id)).Nodup := by
    have hsub : List.Sublist
        ((getUnsettledEvents usage).filter (belongsTo registry d))
        (getUnsettledEvents usage) := List.filter_sublist _
    exact (hsub.map (·.id)).nodup hndu
  have hknd := groupByDeveloper_keys_nodup (options.maxEventsPerBatch.getD 1000)
    registry (getUnsettledEvents usage)
  have htakemem : ∀ e ∈ ((getUnsettledEvents usage).filter
      (belongsTo registry d)).take (options.maxEventsPerBatch.getD 1000),
      e ∈ usage ∧ e.settlementId = none := by
    intro e he
    have hef := List.mem_filter.mp (List.take_subset _ _ he)
    exact unsettled_facts usage e hef.1
  refine ⟨hlk, ?_, ?_⟩
  · -- first cap-many events are settled with the group's settlement id
    rcases mem_split_nodup_keys _ d _ hknd hmem with ⟨pre, post, hsplit, hpre, hpost⟩
    have hidpre : ∀ en ∈ pre, ∀ e ∈ ((getUnsettledEvents usage).filter
        (belongsTo registry d)).take (options.maxEventsPerBatch.getD 1000),
        e.id ∉ en.2.map (·.id) := by
      intro en hen e he
      have henG : en ∈ groupByDeveloper (options.maxEventsPerBatch.getD 1000)
          registry (getUnsettledEvents usage) := by
        rw [hsplit]
        exact List.mem_append.mpr (Or.inl hen)
      exact group_ids_disjoint _ registry _ hndu d _ en.1 en.2 hmem henG
        (fun hh => hpre en hen hh.symm) e he
    have hidpost : ∀ en ∈ post, ∀ e ∈ ((getUnsettledEvents usage).filter
        (belongsTo registry d)).take (options.maxEventsPerBatch.getD 1000),
        e.id ∉ en.2.map (·.id) := by
      intro en hen e he
      have henG : en ∈ groupByDeveloper (options.maxEventsPerBatch.getD 1000)
          registry (getUnsettledEvents usage) := by
        rw [hsplit]
        exact List.mem_append.mpr (Or.inr (List.mem_cons_of_mem _ hen))
      exact group_ids_disjoint _ registry _ hndu d _ en.1 en.2 hmem henG
        (fun hh => hpost en hen hh.symm) e he
    intro e he
    rw [runBatch_eq _ _ _ _ _ _ _ hun_ne, hsplit, List.foldl_append,
      List.foldl_cons]
    have hc : ((distribute d (sumAmount (((getUnsettledEvents usage).filter
        (belongsTo registry d)).take (options.maxEventsPerBatch.getD 1000)))).success
        && txTruthy (distribute d (sumAmount (((getUnsettledEvents usage).filter
        (belongsTo registry d)).take
        (options.maxEventsPerBatch.getD 1000)))).txHash) = true := by
      simp [hsucc, hhash, txTruthy, hne]
    rw [processGroup_success _ _ _ _ _ _ _ hmin hc]
    refine foldl_usage_mem _ distribute newId now post _ _ ?_
      (fun en hen => hidpost en hen e he)
    refine mark_mem_of_mem_ids _ _ _ e ?_ (List.mem_map.mpr ⟨e, he, rfl⟩)
    exact foldl_usage_mem _ distribute newId now pre _ e (htakemem e he).1
      (fun en hen => hidpre en hen e he)
  · -- events beyond the cap stay unsettled
    intro e he
    have hepos : e ∈ (getUnsettledEvents usage).filter (belongsTo registry d) :=
      List.drop_subset _ _ he
    have hef := List.mem_filter.mp hepos
    have hfacts := unsettled_facts usage e hef.1
    refine ⟨?_, hfacts.2⟩
    rw [runBatch_eq _ _ _ _ _ _ _ hun_ne]
    refine foldl_usage_mem _ distribute newId now _ _ e hfacts.1 ?_
    intro en hen
    by_cases hend : en.1 = d
    · have hlk2 : mapLookup (groupByDeveloper (options.maxEventsPerBatch.getD 1000)
          registry (getUnsettledEvents usage)) en.1 = some en.2 :=
        mapLookup_of_mem_nodup _ _ _ hknd hen
      rw [hend, hlk] at hlk2
      have hen2 : en.2 = ((getUnsettledEvents usage).filter
          (belongsTo registry d)).take (options.maxEventsPerBatch.getD 1000) := by
        injection hlk2 with hh
        exact hh.symm
      rw [hen2]
      intro hid
      have hsplitmap : (((getUnsettledEvents usage).filter
          (belongsTo registry d)).map (·.id)) =
          ((((getUnsettledEvents usage).filter (belongsTo registry d)).take
            (options.maxEventsPerBatch.getD 1000)).map (·.id)) ++
          ((((getUnsettledEvents usage).filter (belongsTo registry d)).drop
            (options.maxEventsPerBatch.getD 1000)).map (·.id)) := by
        rw [← List.map_append, List.take_append_drop]
      rw [hsplitmap] at hposnd
      rcases List.nodup_append.mp hposnd with ⟨_, _, hdisj⟩
      exact hdisj hid (List.mem_map.mpr ⟨e, he, rfl⟩)
    · intro hid
      rcases List.mem_map.mp hid with ⟨e', he', heq⟩
      have hsound := groupByDeveloper_sound _ registry _ _ hen e' he'
      have hee : e = e' := eq_of_mem_id_nodup _ hndu e e' hef.1 hsound.1 heq.symm
      exact hend (belongsTo_functional registry en.1 d e' hsound.2
        (by rw [← hee]; exact hef.2))

/-- Fifteen unsettled one-credit events for `dev_1`'s API. -/
def capEvents : List SUsageEvent :=
  [ ⟨"e0", "api_1", 1, none⟩, ⟨"e1", "api_1", 1, none⟩, ⟨"e2", "api_1", 1, none⟩, ⟨"e3", "api_1", 1, none⟩, ⟨"e4", "api_1", 1, none⟩, ⟨"e5", "api_1", 1, none⟩, ⟨"e6", "api_1", 1, none⟩, ⟨"e7", "api_1", 1, none⟩, ⟨"e8", "api_1", 1, none⟩, ⟨"e9", "api_1", 1, none⟩, ⟨"e10", "api_1", 1, none⟩, ⟨"e11", "api_1", 1, none⟩, ⟨"e12", "api_1", 1, none⟩, ⟨"e13", "api_1", 1, none⟩, ⟨"e14", "api_1", 1, none⟩ ]

/-- Witness for C8 at the spec's scenario: 15 unsettled events with a
per-batch cap of 10 — exactly the first 10 settle, 5 remain. -/
theorem C8_witness :
    mapLookup (groupByDeveloper ((⟨some 5, some 10⟩ :
        RevenueSettlementOptions).maxEventsPerBatch.getD 1000) sReg
        (getUnsettledEvents capEvents)) "dev_1" =
      some (((getUnsettledEvents capEvents).filter (belongsTo sReg "dev_1")).take
        ((⟨some 5, some 10⟩ :
          RevenueSettlementOptions).maxEventsPerBatch.getD 1000)) ∧
    (∀ e ∈ ((getUnsettledEvents capEvents).filter (belongsTo sReg "dev_1")).take
        ((⟨some 5, some 10⟩ : RevenueSettlementOptions).maxEventsPerBatch.getD 1000),
      { e with settlementId := some ((fun x : String => x) "dev_1") } ∈
        (runBatch ⟨some 5, some 10⟩ sReg sDistOk (fun x : String => x) "t"
          capEvents []).usage) ∧
    (∀ e ∈ ((getUnsettledEvents capEvents).filter (belongsTo sReg "dev_1")).drop
        ((⟨some 5, some 10⟩ : RevenueSettlementOptions).maxEventsPerBatch.getD 1000),
      e ∈ (runBatch ⟨some 5, some 10⟩ sReg sDistOk (fun x : String => x) "t"
        capEvents []).usage ∧
      e.settlementId = none) :=
  C8_per_batch_cap ⟨some 5, some 10⟩ sReg sDistOk (fun x : String => x) "t"
    capEvents [] "dev_1" "0xmocktx"
    (by decide) (by decide) (by decide)
    (by norm_num [sumAmount, capEvents, getUnsettledEvents, belongsTo, sReg, cEntry,
      List.filter, List.take, List.foldl])
    (by decide) (by decide) (by decide)

end Callora
